import Mathlib

/-!
Shallow embedding of the security-group reconciliation engine of
`pkg/cloud/services/networking/securitygroups.go` (cluster-api-provider-openstack),
together with proofs about the desired/observed diff-apply algorithm, the
observed-state fetcher, the group lifecycle manager and the all-nodes rule
expansion.

Go machine integers are modelled as `Int`; Go `*T` pointer fields are modelled
as `Option T` (`none` = nil); a nil-pointer dereference (a Go panic) is
modelled by an `Option` result where `none` means the panic; fallible provider
calls return `Except Err _`.  Provider calls issued by a function are recorded
in an explicit trace so that claims about call ordering and call counts can be
stated.
-/

namespace networking

abbrev Err := String

/-- The `remoteGroupIDSelf` constant of the source (`"self"`). -/
def remoteGroupIDSelf : String := "self"

/-- Wire representation `rules.SecGroupRule` (gophercloud): all fields are plain
values, never nil. -/
structure SecGroupRule where
  ID : String
  Direction : String
  Description : String
  EtherType : String
  PortRangeMin : Int
  PortRangeMax : Int
  Protocol : String
  RemoteGroupID : String
  RemoteIPPrefix : String
deriving DecidableEq, Repr

/-- Wire representation `groups.SecGroup` (gophercloud). -/
structure SecGroup where
  ID : String
  Name : String
  Rules : List SecGroupRule
deriving DecidableEq, Repr

/-- Embedding of `infrav1.SecurityGroupRuleStatus`: `Direction` and `ID` are plain strings,
the other seven fields are pointers (`Option`). -/
structure SecurityGroupRuleStatus where
  ID : String
  Direction : String
  Description : Option String
  EtherType : Option String
  PortRangeMin : Option Int
  PortRangeMax : Option Int
  Protocol : Option String
  RemoteGroupID : Option String
  RemoteIPPrefix : Option String
deriving DecidableEq, Repr

/-- Embedding of `infrav1.SecurityGroupStatus`. -/
structure SecurityGroupStatus where
  ID : String
  Name : String
  Rules : List SecurityGroupRuleStatus
deriving DecidableEq, Repr

/-- The zero value `infrav1.SecurityGroupStatus{}`. -/
def emptySecurityGroupStatus : SecurityGroupStatus :=
  { ID := "", Name := "", Rules := [] }

/-- The `resolvedSecurityGroupRuleSpec` type of the source. -/
structure resolvedSecurityGroupRuleSpec where
  Description : String
  Direction : String
  EtherType : String
  PortRangeMin : Int
  PortRangeMax : Int
  Protocol : String
  RemoteGroupID : String
  RemoteIPPrefix : String
deriving DecidableEq, Repr

/-- The `securityGroupSpec` type of the source. -/
structure securityGroupSpec where
  Name : String
  Rules : List resolvedSecurityGroupRuleSpec
deriving DecidableEq, Repr

/-- Embedding of `(r resolvedSecurityGroupRuleSpec) Matches(other infrav1.SecurityGroupRuleStatus) bool`.

The Go body is a single `&&`-chain that dereferences the seven pointer fields
of `other` as it goes.  `&&` short-circuits, so a later pointer is only
dereferenced when every earlier comparison succeeded.  `none` models the
nil-dereference panic. -/
def Matches (r : resolvedSecurityGroupRuleSpec) (other : SecurityGroupRuleStatus) :
    Option Bool :=
  match other.Description with
  | none => none
  | some oDescription =>
    if r.Description ≠ oDescription then some false
    else if r.Direction ≠ other.Direction then some false
    else
      match other.EtherType with
      | none => none
      | some oEtherType =>
        if r.EtherType ≠ oEtherType then some false
        else
          match other.PortRangeMin with
          | none => none
          | some oMin =>
            if r.PortRangeMin ≠ oMin then some false
            else
              match other.PortRangeMax with
              | none => none
              | some oMax =>
                if r.PortRangeMax ≠ oMax then some false
                else
                  match other.Protocol with
                  | none => none
                  | some oProtocol =>
                    if r.Protocol ≠ oProtocol then some false
                    else
                      match other.RemoteGroupID with
                      | none => none
                      | some oRemoteGroupID =>
                        if r.RemoteGroupID ≠ oRemoteGroupID then some false
                        else
                          match other.RemoteIPPrefix with
                          | none => none
                          | some oRemoteIPPrefix =>
                            some (r.RemoteIPPrefix = oRemoteIPPrefix)

/-- Embedding of `convertOSSecGroupRuleToConfigSecGroupRule`: every pointer field of the
result points at a (copy of a) field of the wire rule, hence is non-nil. -/
def convertOSSecGroupRuleToConfigSecGroupRule (osSecGroupRule : SecGroupRule) :
    SecurityGroupRuleStatus :=
  { ID := osSecGroupRule.ID
    Direction := osSecGroupRule.Direction
    Description := some osSecGroupRule.Description
    EtherType := some osSecGroupRule.EtherType
    PortRangeMin := some osSecGroupRule.PortRangeMin
    PortRangeMax := some osSecGroupRule.PortRangeMax
    Protocol := some osSecGroupRule.Protocol
    RemoteGroupID := some osSecGroupRule.RemoteGroupID
    RemoteIPPrefix := some osSecGroupRule.RemoteIPPrefix }

/-- Embedding of `convertOSSecGroupToConfigSecGroup`. -/
def convertOSSecGroupToConfigSecGroup (osSecGroup : SecGroup) : SecurityGroupStatus :=
  { ID := osSecGroup.ID
    Name := osSecGroup.Name
    Rules := osSecGroup.Rules.map convertOSSecGroupRuleToConfigSecGroupRule }

/-! ### Structural rule content (the eight compared fields, never the ID) -/

/-- The eight fields compared by `Matches`; the provider-assigned ID is not
among them. -/
structure RuleFields where
  Description : String
  Direction : String
  EtherType : String
  PortRangeMin : Int
  PortRangeMax : Int
  Protocol : String
  RemoteGroupID : String
  RemoteIPPrefix : String
deriving DecidableEq, Repr

/-- Content of a desired rule spec. -/
def specFields (r : resolvedSecurityGroupRuleSpec) : RuleFields :=
  { Description := r.Description
    Direction := r.Direction
    EtherType := r.EtherType
    PortRangeMin := r.PortRangeMin
    PortRangeMax := r.PortRangeMax
    Protocol := r.Protocol
    RemoteGroupID := r.RemoteGroupID
    RemoteIPPrefix := r.RemoteIPPrefix }

/-- Content of an observed rule status; `none` when some pointer field is nil. -/
def statusFields (o : SecurityGroupRuleStatus) : Option RuleFields := do
  let oDescription ← o.Description
  let oEtherType ← o.EtherType
  let oMin ← o.PortRangeMin
  let oMax ← o.PortRangeMax
  let oProtocol ← o.Protocol
  let oRemoteGroupID ← o.RemoteGroupID
  let oRemoteIPPrefix ← o.RemoteIPPrefix
  pure { Description := oDescription
         Direction := o.Direction
         EtherType := oEtherType
         PortRangeMin := oMin
         PortRangeMax := oMax
         Protocol := oProtocol
         RemoteGroupID := oRemoteGroupID
         RemoteIPPrefix := oRemoteIPPrefix }

/-! ### Provider client, call traces -/

/-- Embedding of `rules.CreateOpts` as populated by `createRule` (the typed gophercloud
direction/protocol/ether-type wrappers are plain strings). -/
structure CreateOpts where
  Description : String
  Direction : String
  PortRangeMin : Int
  PortRangeMax : Int
  Protocol : String
  EtherType : String
  RemoteGroupID : String
  RemoteIPPrefix : String
  SecGroupID : String
deriving DecidableEq, Repr

/-- The cloud networking client (`s.client`): each operation either returns a
result or an error.  A concrete value of this structure fixes the provider's
response to every possible call. -/
structure NetworkClient where
  ListSecGroup : String → Except Err (List SecGroup)
  CreateSecGroup : String → String → Except Err SecGroup
  DeleteSecGroup : String → Except Err Unit
  CreateSecGroupRule : CreateOpts → Except Err SecGroupRule
  DeleteSecGroupRule : String → Except Err Unit
  ReplaceAllAttributesTags : String → String → List String → Except Err (List String)

/-- One mutating rule-level provider call, as recorded in a trace. -/
inductive ProviderCall where
  | deleteCall (id : String)
  | createCall (opts : CreateOpts)
deriving DecidableEq, Repr

def ProviderCall.isDelete : ProviderCall → Bool
  | .deleteCall _ => true
  | .createCall _ => false

/-- The provider answers this call with error `e`. -/
def callFails (client : NetworkClient) (e : Err) : ProviderCall → Prop
  | .deleteCall id => client.DeleteSecGroupRule id = .error e
  | .createCall opts => ∃ msg, client.CreateSecGroupRule opts = .error msg ∧ msg = e

/-- The provider answers this call successfully. -/
def callSucceeds (client : NetworkClient) : ProviderCall → Prop
  | .deleteCall id => client.DeleteSecGroupRule id = .ok ()
  | .createCall opts => ∃ w, client.CreateSecGroupRule opts = .ok w

/-! ### reconcileGroupRules -/

/-- The `self`-sentinel substitution applied by `reconcileGroupRules` before a
comparison (lines 367-370, 386-389) and before a create call (lines 415-418):
`if r.RemoteGroupID == remoteGroupIDSelf { r.RemoteGroupID = observed.ID }`. -/
def resolveSelf (observedID : String) (r : resolvedSecurityGroupRuleSpec) :
    resolvedSecurityGroupRuleSpec :=
  if r.RemoteGroupID = remoteGroupIDSelf then { r with RemoteGroupID := observedID } else r

/-- Inner loop of the deletion pass: does some desired rule (with `self`
resolved to the observed group's ID) match this observed rule?
`none` models a nil-dereference panic inside `Matches`. -/
def anyDesiredMatches (observedID : String)
    (desiredRules : List resolvedSecurityGroupRuleSpec)
    (observedRule : SecurityGroupRuleStatus) : Option Bool :=
  match desiredRules with
  | [] => some false
  | d :: rest => do
    let b ← Matches (resolveSelf observedID d) observedRule
    if b then pure true else anyDesiredMatches observedID rest observedRule

/-- First pass of `reconcileGroupRules` (lines 362-379): the IDs of the
observed rules no desired rule matches, in observed order. -/
def rulesToDeleteOf (observedID : String)
    (desiredRules : List resolvedSecurityGroupRuleSpec) :
    List SecurityGroupRuleStatus → Option (List String)
  | [] => some []
  | o :: rest => do
    let m ← anyDesiredMatches observedID desiredRules o
    let tail ← rulesToDeleteOf observedID desiredRules rest
    pure (if m then tail else o.ID :: tail)

/-- Inner loop of the creation pass: the first observed rule matched by `r`
(already `self`-resolved), if any. -/
def firstObservedMatch (r : resolvedSecurityGroupRuleSpec) :
    List SecurityGroupRuleStatus → Option (Option SecurityGroupRuleStatus)
  | [] => some none
  | o :: rest => do
    let b ← Matches r o
    if b then pure (some o) else firstObservedMatch r rest

/-- Second pass of `reconcileGroupRules` (lines 381-402): splits the desired
rules into `rulesToCreate` (no observed match; kept unresolved, line 400) and
the already-existing observed rules carried into `reconciledRules`
(first match per desired rule, in desired order). -/
def splitDesired (observedID : String) (observedRules : List SecurityGroupRuleStatus) :
    List resolvedSecurityGroupRuleSpec →
    Option (List resolvedSecurityGroupRuleSpec × List SecurityGroupRuleStatus)
  | [] => some ([], [])
  | d :: rest => do
    let fm ← firstObservedMatch (resolveSelf observedID d) observedRules
    let (toCreate, matched) ← splitDesired observedID observedRules rest
    match fm with
    | some o => pure (toCreate, o :: matched)
    | none => pure (d :: toCreate, matched)

/-- The `rules.CreateOpts` built by `createRule` for group `securityGroupID`
and resolved rule `r`. -/
def createRuleOpts (securityGroupID : String) (r : resolvedSecurityGroupRuleSpec) :
    CreateOpts :=
  { Description := r.Description
    Direction := r.Direction
    PortRangeMin := r.PortRangeMin
    PortRangeMax := r.PortRangeMax
    Protocol := r.Protocol
    EtherType := r.EtherType
    RemoteGroupID := r.RemoteGroupID
    RemoteIPPrefix := r.RemoteIPPrefix
    SecGroupID := securityGroupID }

/-- Embedding of `createRule`: issue the provider create and convert the returned wire rule. -/
def createRule (client : NetworkClient) (securityGroupID : String)
    (r : resolvedSecurityGroupRuleSpec) : Except Err SecurityGroupRuleStatus :=
  match client.CreateSecGroupRule (createRuleOpts securityGroupID r) with
  | .error e => .error e
  | .ok rule => .ok (convertOSSecGroupRuleToConfigSecGroupRule rule)

/-- Deletion loop of `reconcileGroupRules` (lines 404-411): issues one
`DeleteSecGroupRule` per ID, stopping at the first error.  Returns the calls
actually issued and the error, if any. -/
def runDeletes (client : NetworkClient) :
    List String → List ProviderCall × Option Err
  | [] => ([], none)
  | id :: rest =>
    match client.DeleteSecGroupRule id with
    | .error e => ([ProviderCall.deleteCall id], some e)
    | .ok _ =>
      let (tr, res) := runDeletes client rest
      (ProviderCall.deleteCall id :: tr, res)

/-- Creation loop of `reconcileGroupRules` (lines 413-424): resolves `self`
once more, issues one `CreateSecGroupRule` per rule, stopping at the first
error; successful creations are converted and appended. -/
def runCreates (client : NetworkClient) (observedID : String) :
    List resolvedSecurityGroupRuleSpec →
    List ProviderCall × Except Err (List SecurityGroupRuleStatus)
  | [] => ([], .ok [])
  | rule :: rest =>
    let r := resolveSelf observedID rule
    match createRule client observedID r with
    | .error e => ([ProviderCall.createCall (createRuleOpts observedID r)], .error e)
    | .ok newRule =>
      let (tr, res) := runCreates client observedID rest
      (ProviderCall.createCall (createRuleOpts observedID r) :: tr,
        match res with
        | .error e => .error e
        | .ok l => .ok (newRule :: l))

/-- Mutation phase of `reconcileGroupRules` (lines 404-431): all deletions,
then all creations, then assembly of the returned status (zero-value sentinel
when the reconciled rule list is empty). -/
def applyGroupRules (client : NetworkClient) (observed : SecurityGroupStatus)
    (rulesToDelete : List String)
    (rulesToCreate : List resolvedSecurityGroupRuleSpec)
    (matched : List SecurityGroupRuleStatus) :
    List ProviderCall × Except Err SecurityGroupStatus :=
  match runDeletes client rulesToDelete with
  | (delTrace, some e) => (delTrace, .error e)
  | (delTrace, none) =>
    match runCreates client observed.ID rulesToCreate with
    | (crTrace, .error e) => (delTrace ++ crTrace, .error e)
    | (crTrace, .ok created) =>
      let reconciledRules := matched ++ created
      if reconciledRules.isEmpty then
        (delTrace ++ crTrace, .ok emptySecurityGroupStatus)
      else
        (delTrace ++ crTrace, .ok { observed with Rules := reconciledRules })

/-- Embedding of `reconcileGroupRules`: the outer `none` models a nil-dereference panic in
`Matches` during the two computation passes (which both precede any provider
call); otherwise the result is the ordered trace of mutating provider calls
together with the function's return value. -/
def reconcileGroupRules (client : NetworkClient) (desired : securityGroupSpec)
    (observed : SecurityGroupStatus) :
    Option (List ProviderCall × Except Err SecurityGroupStatus) := do
  let rulesToDelete ← rulesToDeleteOf observed.ID desired.Rules observed.Rules
  let (rulesToCreate, matched) ← splitDesired observed.ID observed.Rules desired.Rules
  pure (applyGroupRules client observed rulesToDelete rulesToCreate matched)

/-! ### Observed-state fetcher -/

/-- Embedding of `getSecurityGroupByName`: list groups with that exact name and apply the
cardinality contract (lines 473-492). -/
def getSecurityGroupByName (client : NetworkClient) (name : String) :
    Except Err SecurityGroupStatus :=
  match client.ListSecGroup name with
  | .error e => .error e
  | .ok allGroups =>
    match allGroups with
    | [] => .ok emptySecurityGroupStatus
    | [g] => .ok (convertOSSecGroupToConfigSecGroup g)
    | _ => .error ("more than one security group found named: " ++ name)

/-! ### Group lifecycle manager -/

/-- One group-level provider call, as recorded in a trace. -/
inductive GroupCall where
  | listCall (name : String)
  | createGroupCall (name description : String)
  | replaceTagsCall (resourceType id : String) (tags : List String)
  | deleteGroupCall (id : String)
deriving DecidableEq, Repr

/-- Embedding of `createSecurityGroupIfNotExists` (lines 434-471), with the cluster's
configured tags passed in; returns the ordered trace of provider calls and
the outcome. -/
def createSecurityGroupIfNotExists (client : NetworkClient) (tags : List String)
    (groupName : String) : List GroupCall × Except Err Unit :=
  match getSecurityGroupByName client groupName with
  | .error e => ([GroupCall.listCall groupName], .error e)
  | .ok secGroup =>
    if secGroup.ID = "" then
      match client.CreateSecGroup groupName "Cluster API managed group" with
      | .error e =>
        ([GroupCall.listCall groupName,
          GroupCall.createGroupCall groupName "Cluster API managed group"], .error e)
      | .ok group =>
        if tags.length > 0 then
          match client.ReplaceAllAttributesTags "security-groups" group.ID tags with
          | .error e =>
            ([GroupCall.listCall groupName,
              GroupCall.createGroupCall groupName "Cluster API managed group",
              GroupCall.replaceTagsCall "security-groups" group.ID tags], .error e)
          | .ok _ =>
            ([GroupCall.listCall groupName,
              GroupCall.createGroupCall groupName "Cluster API managed group",
              GroupCall.replaceTagsCall "security-groups" group.ID tags], .ok ())
        else
          ([GroupCall.listCall groupName,
            GroupCall.createGroupCall groupName "Cluster API managed group"], .ok ())
    else
      ([GroupCall.listCall groupName], .ok ())

/-- Embedding of `deleteSecurityGroup` (lines 340-357): fetch by name; absent means nothing
to do; otherwise issue the provider delete. -/
def deleteSecurityGroup (client : NetworkClient) (name : String) :
    List GroupCall × Except Err Unit :=
  match getSecurityGroupByName client name with
  | .error e => ([GroupCall.listCall name], .error e)
  | .ok group =>
    if group.ID = "" then
      ([GroupCall.listCall name], .ok ())
    else
      match client.DeleteSecGroup group.ID with
      | .error e => ([GroupCall.listCall name, GroupCall.deleteGroupCall group.ID], .error e)
      | .ok _ => ([GroupCall.listCall name, GroupCall.deleteGroupCall group.ID], .ok ())

/-! ### All-nodes rule expansion -/

/-- Embedding of `infrav1.SecurityGroupRuleSpec`: the user-facing all-nodes rule template.
`RemoteManagedGroups` holds the `String()` forms of the logical role names. -/
structure SecurityGroupRuleSpec where
  Description : Option String
  Direction : String
  EtherType : Option String
  PortRangeMin : Option Int
  PortRangeMax : Option Int
  Protocol : Option String
  RemoteGroupID : Option String
  RemoteManagedGroups : List String
  RemoteIPPrefix : Option String
deriving DecidableEq, Repr

/-- Inner loop of `validateRemoteManagedGroups` (lines 278-282): membership of
each referenced role in the resolution table, first failure wins. -/
def validateGroupsResolve (remoteManagedGroups : List (String × String)) :
    List String → Except Err Unit
  | [] => .ok ()
  | group :: rest =>
    if (List.lookup group remoteManagedGroups).isSome then
      validateGroupsResolve remoteManagedGroups rest
    else
      .error ("remoteManagedGroups: " ++ group ++ " is not a valid remote managed security group")

/-- Embedding of `validateRemoteManagedGroups` (lines 273-284).  Note it rejects an empty
`remoteManagedGroups` list outright. -/
def validateRemoteManagedGroups (remoteManagedGroups : List (String × String))
    (ruleRemoteManagedGroups : List String) : Except Err Unit :=
  if ruleRemoteManagedGroups.length = 0 then
    .error "remoteManagedGroups is required"
  else
    validateGroupsResolve remoteManagedGroups ruleRemoteManagedGroups

/-- Loop body of `getAllNodesRules` after validation (lines 230-267): build the
resolved rule from the optional template fields (Go zero values for nil),
enforce the direct-reference/logical-reference mutual exclusion, and expand
one rule per referenced role (Go map access yields `""` for a missing key). -/
def expandAllNodesRule (remoteManagedGroups : List (String × String))
    (rule : SecurityGroupRuleSpec) : Except Err (List resolvedSecurityGroupRuleSpec) :=
  let r : resolvedSecurityGroupRuleSpec :=
    { Description := rule.Description.getD ""
      Direction := rule.Direction
      EtherType := rule.EtherType.getD ""
      PortRangeMin := rule.PortRangeMin.getD 0
      PortRangeMax := rule.PortRangeMax.getD 0
      Protocol := rule.Protocol.getD ""
      RemoteGroupID := rule.RemoteGroupID.getD ""
      RemoteIPPrefix := rule.RemoteIPPrefix.getD "" }
  if rule.RemoteManagedGroups.length > 0 then
    if rule.RemoteGroupID.isSome then
      .error "remoteGroupID must not be set when remoteManagedGroups is set"
    else
      .ok (rule.RemoteManagedGroups.map fun rg =>
        { r with RemoteGroupID := (List.lookup rg remoteManagedGroups).getD "" })
  else
    .ok [r]

/-- Embedding of `getAllNodesRules` (lines 224-270): per template, validate (unconditionally)
then expand; the first error aborts the whole expansion. -/
def getAllNodesRules (remoteManagedGroups : List (String × String)) :
    List SecurityGroupRuleSpec → Except Err (List resolvedSecurityGroupRuleSpec)
  | [] => .ok []
  | rule :: rest =>
    match validateRemoteManagedGroups remoteManagedGroups rule.RemoteManagedGroups with
    | .error e => .error e
    | .ok _ =>
      match expandAllNodesRule remoteManagedGroups rule with
      | .error e => .error e
      | .ok rs =>
        match getAllNodesRules remoteManagedGroups rest with
        | .error e => .error e
        | .ok tail => .ok (rs ++ tail)

/-! ### Desired-state generator -/

/-- Role suffix constants of the source. -/
def controlPlaneSuffix : String := "controlplane"

def workerSuffix : String := "worker"

def bastionSuffix : String := "bastion"

/-- Embedding of `infrav1.ManagedSecurityGroups` (the fields read by the generator). -/
structure ManagedSecurityGroups where
  AllowAllInClusterTraffic : Bool
  AllNodesSecurityGroupRules : List SecurityGroupRuleSpec
deriving DecidableEq, Repr

/-- The cluster configuration fields read by `generateDesiredSecGroups`. -/
structure ClusterSpecConfig where
  ManagedSecurityGroups : Option ManagedSecurityGroups
  APIServerLoadBalancerEnabled : Bool
  APIServerLoadBalancerAdditionalPorts : List Int
  BastionEnabled : Bool
deriving DecidableEq, Repr

/-- Modelled from the spec: the fixed rule templates (`defaultRules`,
`getSGControlPlaneHTTPS`, `getSGWorkerNodePort`,
`getSGControlPlaneAdditionalPorts`, `getSGControlPlaneAllowAll`,
`getSGWorkerAllowAll`, `getSGControlPlaneGeneral`, `getSGWorkerGeneral`,
`getSGControlPlaneSSH`, `getSGWorkerSSH`) live in a source file that is not
part of this repository snapshot; the spec describes them only as fixed
baseline/role-specific rule lists, so they are taken here as parameters. -/
structure RuleTemplates where
  defaultRules : List resolvedSecurityGroupRuleSpec
  sgControlPlaneHTTPS : List resolvedSecurityGroupRuleSpec
  sgWorkerNodePort : List resolvedSecurityGroupRuleSpec
  sgControlPlaneAdditionalPorts : List Int → List resolvedSecurityGroupRuleSpec
  sgControlPlaneAllowAll : String → String → List resolvedSecurityGroupRuleSpec
  sgWorkerAllowAll : String → String → List resolvedSecurityGroupRuleSpec
  sgControlPlaneGeneral : String → String → List resolvedSecurityGroupRuleSpec
  sgWorkerGeneral : String → String → List resolvedSecurityGroupRuleSpec
  sgControlPlaneSSH : String → List resolvedSecurityGroupRuleSpec
  sgWorkerSSH : String → List resolvedSecurityGroupRuleSpec

/-- The fixed bastion SSH rule of `generateDesiredSecGroups` (lines 196-205). -/
def bastionSSHRule : resolvedSecurityGroupRuleSpec :=
  { Description := "SSH"
    Direction := "ingress"
    EtherType := "IPv4"
    PortRangeMin := 22
    PortRangeMax := 22
    Protocol := "tcp"
    RemoteGroupID := ""
    RemoteIPPrefix := "" }

/-- The fetch loop of `generateDesiredSecGroups` (lines 141-157): look up each
named group and record its ID for the known role suffixes, building the
control-plane/worker/bastion IDs and the remote-managed-groups table. -/
def fetchGroupIDs (client : NetworkClient) :
    List (String × String) →
    Except Err (String × String × String × List (String × String))
  | [] => .ok ("", "", "", [])
  | (i, v) :: rest =>
    match getSecurityGroupByName client v with
    | .error e => .error e
    | .ok secGroup =>
      match fetchGroupIDs client rest with
      | .error e => .error e
      | .ok (cp, w, b, table) =>
        if i = controlPlaneSuffix then
          .ok (secGroup.ID, w, b, (controlPlaneSuffix, secGroup.ID) :: table)
        else if i = workerSuffix then
          .ok (cp, secGroup.ID, b, (workerSuffix, secGroup.ID) :: table)
        else if i = bastionSuffix then
          .ok (cp, w, secGroup.ID, (bastionSuffix, secGroup.ID) :: table)
        else
          .ok (cp, w, b, table)

/-- Embedding of `generateDesiredSecGroups` (lines 124-221).  `secGroupNames` is the
suffix-to-name table built by the caller; the result maps role suffixes to
group specs.  On any error no group spec is produced. -/
def generateDesiredSecGroups (tpl : RuleTemplates) (client : NetworkClient)
    (config : ClusterSpecConfig) (secGroupNames : List (String × String)) :
    Except Err (List (String × securityGroupSpec)) :=
  match config.ManagedSecurityGroups with
  | none => .ok []
  | some msg =>
    match fetchGroupIDs client secGroupNames with
    | .error e => .error e
    | .ok (secControlPlaneGroupID, secWorkerGroupID, secBastionGroupID, remoteManagedGroups) =>
      let controlPlaneRulesBase :=
        tpl.defaultRules ++ tpl.sgControlPlaneHTTPS ++
        (if config.APIServerLoadBalancerEnabled then
          tpl.sgControlPlaneAdditionalPorts config.APIServerLoadBalancerAdditionalPorts
        else []) ++
        (if msg.AllowAllInClusterTraffic then
          tpl.sgControlPlaneAllowAll remoteGroupIDSelf secWorkerGroupID
        else
          tpl.sgControlPlaneGeneral remoteGroupIDSelf secWorkerGroupID)
      let workerRulesBase :=
        tpl.defaultRules ++ tpl.sgWorkerNodePort ++
        (if msg.AllowAllInClusterTraffic then
          tpl.sgWorkerAllowAll remoteGroupIDSelf secControlPlaneGroupID
        else
          tpl.sgWorkerGeneral remoteGroupIDSelf secControlPlaneGroupID)
      match getAllNodesRules remoteManagedGroups msg.AllNodesSecurityGroupRules with
      | .error e => .error e
      | .ok allNodesRules =>
        let controlPlaneRules := controlPlaneRulesBase ++ allNodesRules ++
          (if config.BastionEnabled then tpl.sgControlPlaneSSH secBastionGroupID else [])
        let workerRules := workerRulesBase ++ allNodesRules ++
          (if config.BastionEnabled then tpl.sgWorkerSSH secBastionGroupID else [])
        let bastionEntry :=
          if config.BastionEnabled then
            [(bastionSuffix,
              { Name := (List.lookup bastionSuffix secGroupNames).getD ""
                Rules := bastionSSHRule :: tpl.defaultRules : securityGroupSpec })]
          else []
        .ok (bastionEntry ++
          [(controlPlaneSuffix,
            { Name := (List.lookup controlPlaneSuffix secGroupNames).getD ""
              Rules := controlPlaneRules }),
           (workerSuffix,
            { Name := (List.lookup workerSuffix secGroupNames).getD ""
              Rules := workerRules })])

/-! ### A well-behaved provider -/

/-- The eight rule fields of a create request. -/
def optsFields (opts : CreateOpts) : RuleFields :=
  { Description := opts.Description
    Direction := opts.Direction
    EtherType := opts.EtherType
    PortRangeMin := opts.PortRangeMin
    PortRangeMax := opts.PortRangeMax
    Protocol := opts.Protocol
    RemoteGroupID := opts.RemoteGroupID
    RemoteIPPrefix := opts.RemoteIPPrefix }

/-- The eight rule fields of a wire rule. -/
def wireFields (w : SecGroupRule) : RuleFields :=
  { Description := w.Description
    Direction := w.Direction
    EtherType := w.EtherType
    PortRangeMin := w.PortRangeMin
    PortRangeMax := w.PortRangeMax
    Protocol := w.Protocol
    RemoteGroupID := w.RemoteGroupID
    RemoteIPPrefix := w.RemoteIPPrefix }

/-- A provider that echoes create requests: any wire rule it returns for a
create call carries exactly the requested rule fields (the provider only adds
the generated ID).  This is the behaviour the OpenStack API contract
guarantees; nothing is assumed about failures. -/
def EchoClient (client : NetworkClient) : Prop :=
  ∀ opts w, client.CreateSecGroupRule opts = .ok w → wireFields w = optsFields opts

/-! ### Concrete example data -/

/-- A wire rule echoing a create request, with a fixed provider-generated ID. -/
def echoWire (opts : CreateOpts) : SecGroupRule :=
  { ID := "generated-id"
    Direction := opts.Direction
    Description := opts.Description
    EtherType := opts.EtherType
    PortRangeMin := opts.PortRangeMin
    PortRangeMax := opts.PortRangeMax
    Protocol := opts.Protocol
    RemoteGroupID := opts.RemoteGroupID
    RemoteIPPrefix := opts.RemoteIPPrefix }

/-- A concrete well-behaved provider: rule deletions succeed, rule creations
echo the request. -/
def echoClient : NetworkClient :=
  { ListSecGroup := fun _ => .ok []
    CreateSecGroup := fun _ _ => .error "unused"
    DeleteSecGroup := fun _ => .error "unused"
    CreateSecGroupRule := fun opts => .ok (echoWire opts)
    DeleteSecGroupRule := fun _ => .ok ()
    ReplaceAllAttributesTags := fun _ _ tags => .ok tags }

def sampleSelfRule : resolvedSecurityGroupRuleSpec :=
  { Description := "SSH"
    Direction := "ingress"
    EtherType := "IPv4"
    PortRangeMin := 22
    PortRangeMax := 22
    Protocol := "tcp"
    RemoteGroupID := "self"
    RemoteIPPrefix := "" }

def sampleRuleB : resolvedSecurityGroupRuleSpec :=
  { Description := "HTTP"
    Direction := "ingress"
    EtherType := "IPv4"
    PortRangeMin := 80
    PortRangeMax := 80
    Protocol := "tcp"
    RemoteGroupID := ""
    RemoteIPPrefix := "" }

/-- A rule status carrying the content of a resolved rule spec plus an ID. -/
def ruleStatusOf (id : String) (r : resolvedSecurityGroupRuleSpec) :
    SecurityGroupRuleStatus :=
  { ID := id
    Direction := r.Direction
    Description := some r.Description
    EtherType := some r.EtherType
    PortRangeMin := some r.PortRangeMin
    PortRangeMax := some r.PortRangeMax
    Protocol := some r.Protocol
    RemoteGroupID := some r.RemoteGroupID
    RemoteIPPrefix := some r.RemoteIPPrefix }

def convergeDesired : securityGroupSpec := { Name := "g", Rules := [sampleSelfRule] }

def convergeObserved : SecurityGroupStatus := { ID := "gid-1", Name := "g", Rules := [] }

def convergedExample : SecurityGroupStatus :=
  { ID := "gid-1"
    Name := "g"
    Rules := [convertOSSecGroupRuleToConfigSecGroupRule
      (echoWire (createRuleOpts "gid-1" (resolveSelf "gid-1" sampleSelfRule)))] }

def dupDesired : securityGroupSpec := { Name := "g", Rules := [sampleRuleB] }

/-- Two observed rules with identical content but different provider IDs. -/
def dupObserved : SecurityGroupStatus :=
  { ID := "gid-1"
    Name := "g"
    Rules := [ruleStatusOf "r1" sampleRuleB, ruleStatusOf "r2" sampleRuleB] }

/-- An observed rule status with a nil EtherType pointer but a description that
differs from `sampleRuleB`'s. -/
def nilEtherStatus : SecurityGroupRuleStatus :=
  { ID := "x"
    Direction := "ingress"
    Description := some "other description"
    EtherType := none
    PortRangeMin := none
    PortRangeMax := none
    Protocol := none
    RemoteGroupID := none
    RemoteIPPrefix := none }

def sampleGroupA : SecGroup := { ID := "ga", Name := "n", Rules := [] }

def sampleGroupB : SecGroup := { ID := "gb", Name := "n", Rules := [] }

/-- A provider holding exactly one group named anything it is asked for. -/
def oneGroupClient : NetworkClient :=
  { echoClient with ListSecGroup := fun _ => .ok [sampleGroupA] }

/-- A provider reporting two groups for every name. -/
def twoGroupClient : NetworkClient :=
  { echoClient with ListSecGroup := fun _ => .ok [sampleGroupA, sampleGroupB] }

/-- Trivial rule templates for exercising the generator. -/
def tplEmpty : RuleTemplates :=
  { defaultRules := []
    sgControlPlaneHTTPS := []
    sgWorkerNodePort := []
    sgControlPlaneAdditionalPorts := fun _ => []
    sgControlPlaneAllowAll := fun _ _ => []
    sgWorkerAllowAll := fun _ _ => []
    sgControlPlaneGeneral := fun _ _ => []
    sgWorkerGeneral := fun _ _ => []
    sgControlPlaneSSH := fun _ => []
    sgWorkerSSH := fun _ => [] }

/-- An all-nodes template referencing the bastion role. -/
def bastionTemplate : SecurityGroupRuleSpec :=
  { Description := some "d"
    Direction := "ingress"
    EtherType := some "IPv4"
    PortRangeMin := some 1
    PortRangeMax := some 2
    Protocol := some "tcp"
    RemoteGroupID := none
    RemoteManagedGroups := ["bastion"]
    RemoteIPPrefix := none }

/-- An all-nodes template carrying only a direct remote group ID. -/
def directRuleTemplate : SecurityGroupRuleSpec :=
  { Description := some "d"
    Direction := "ingress"
    EtherType := some "IPv4"
    PortRangeMin := some 1
    PortRangeMax := some 2
    Protocol := some "tcp"
    RemoteGroupID := some "g-123"
    RemoteManagedGroups := []
    RemoteIPPrefix := none }

/-- Cluster configuration whose all-nodes templates reference bastion while
bastion is disabled. -/
def unresolvedConfig : ClusterSpecConfig :=
  { ManagedSecurityGroups := some
      { AllowAllInClusterTraffic := false
        AllNodesSecurityGroupRules := [bastionTemplate] }
    APIServerLoadBalancerEnabled := false
    APIServerLoadBalancerAdditionalPorts := []
    BastionEnabled := false }

/-- Role-suffix-to-name table with bastion disabled. -/
def roleNames : List (String × String) :=
  [(controlPlaneSuffix, "k8s-cluster-c-secgroup-controlplane"),
   (workerSuffix, "k8s-cluster-c-secgroup-worker")]

def emptyDesired : securityGroupSpec := { Name := "g", Rules := [] }

def observedOneRule : SecurityGroupStatus :=
  { ID := "gid-1", Name := "g", Rules := [ruleStatusOf "r1" sampleRuleB] }

/-- A provider whose rule deletions always fail. -/
def failDeleteClient : NetworkClient :=
  { echoClient with DeleteSecGroupRule := fun _ => .error "boom" }

def sampleWireRule : SecGroupRule :=
  { ID := "wr-1"
    Direction := "ingress"
    Description := "d"
    EtherType := "IPv4"
    PortRangeMin := 1
    PortRangeMax := 2
    Protocol := "tcp"
    RemoteGroupID := ""
    RemoteIPPrefix := "" }

def sampleGroupWithRule : SecGroup :=
  { ID := "gaa", Name := "n", Rules := [sampleWireRule] }

/-- A provider holding one group that carries one rule. -/
def ruleClient : NetworkClient :=
  { echoClient with ListSecGroup := fun _ => .ok [sampleGroupWithRule] }

theorem statusFields_convert (w : SecGroupRule) :
    statusFields (convertOSSecGroupRuleToConfigSecGroupRule w) =
      some { Description := w.Description
             Direction := w.Direction
             EtherType := w.EtherType
             PortRangeMin := w.PortRangeMin
             PortRangeMax := w.PortRangeMax
             Protocol := w.Protocol
             RemoteGroupID := w.RemoteGroupID
             RemoteIPPrefix := w.RemoteIPPrefix } := rfl

/-- On a rule status with no nil field, `Matches` is total and decides equality
of the structural content. -/
theorem Matches_eq_of_statusFields {o : SecurityGroupRuleStatus} {f : RuleFields}
    (h : statusFields o = some f) (r : resolvedSecurityGroupRuleSpec) :
    Matches r o = some (decide (specFields r = f)) := by
  obtain ⟨oid, odir, od, oe, omin, omax, op, org, oip⟩ := o
  simp only [statusFields] at h
  cases od with
  | none => simp at h
  | some od =>
  cases oe with
  | none => simp at h
  | some oe =>
  cases omin with
  | none => simp at h
  | some omin =>
  cases omax with
  | none => simp at h
  | some omax =>
  cases op with
  | none => simp at h
  | some op =>
  cases org with
  | none => simp at h
  | some org =>
  cases oip with
  | none => simp at h
  | some oip =>
  simp at h
  subst h
  simp only [Matches, specFields, RuleFields.mk.injEq]
  split_ifs with h1 h2 h3 h4 h5 h6 h7 <;> simp_all

/-- A result `Matches r o = some true` can only arise when every pointer field of `o`
was dereferenced, so `o` has no nil field. -/
theorem statusFields_isSome_of_Matches_true {r : resolvedSecurityGroupRuleSpec}
    {o : SecurityGroupRuleStatus} (h : Matches r o = some true) :
    (statusFields o).isSome := by
  obtain ⟨oid, odir, od, oe, omin, omax, op, org, oip⟩ := o
  cases od with
  | none => simp [Matches] at h
  | some od =>
  cases oe with
  | none => simp only [Matches] at h; split_ifs at h <;> simp_all
  | some oe =>
  cases omin with
  | none => simp only [Matches] at h; split_ifs at h <;> simp_all
  | some omin =>
  cases omax with
  | none => simp only [Matches] at h; split_ifs at h <;> simp_all
  | some omax =>
  cases op with
  | none => simp only [Matches] at h; split_ifs at h <;> simp_all
  | some op =>
  cases org with
  | none => simp only [Matches] at h; split_ifs at h <;> simp_all
  | some org =>
  cases oip with
  | none => simp only [Matches] at h; split_ifs at h <;> simp_all
  | some oip => simp [statusFields]

/-- A successful full comparison pins down the observed rule's content: every
pointer was dereferenced and every field equals the spec's. -/
theorem statusFields_of_Matches_true {r : resolvedSecurityGroupRuleSpec}
    {o : SecurityGroupRuleStatus} (h : Matches r o = some true) :
    statusFields o = some (specFields r) := by
  obtain ⟨f, hf⟩ := Option.isSome_iff_exists.mp (statusFields_isSome_of_Matches_true h)
  rw [Matches_eq_of_statusFields hf r] at h
  simp only [Option.some.injEq, decide_eq_true_eq] at h
  rw [hf, h]

theorem statusFields_convert_wire (w : SecGroupRule) :
    statusFields (convertOSSecGroupRuleToConfigSecGroupRule w) = some (wireFields w) := rfl

theorem optsFields_createRuleOpts (gid : String) (r : resolvedSecurityGroupRuleSpec) :
    optsFields (createRuleOpts gid r) = specFields r := rfl

/-! ### Lemmas on the computation passes -/

theorem anyDesiredMatches_eq {o : SecurityGroupRuleStatus} {f : RuleFields}
    (h : statusFields o = some f) (gid : String)
    (ds : List resolvedSecurityGroupRuleSpec) :
    anyDesiredMatches gid ds o =
      some (decide (∃ d ∈ ds, specFields (resolveSelf gid d) = f)) := by
  induction ds with
  | nil => simp [anyDesiredMatches]
  | cons d rest ih =>
    simp only [anyDesiredMatches, Matches_eq_of_statusFields h, Option.bind_eq_bind,
      Option.some_bind, ih]
    by_cases hd : specFields (resolveSelf gid d) = f <;> simp [hd]

/-- If every observed rule has content realised by some desired rule, the
deletion pass computes the empty deletion set. -/
theorem rulesToDeleteOf_nil (gid : String) (ds : List resolvedSecurityGroupRuleSpec)
    {os : List SecurityGroupRuleStatus}
    (h : ∀ o ∈ os, ∃ f, statusFields o = some f ∧
      ∃ d ∈ ds, specFields (resolveSelf gid d) = f) :
    rulesToDeleteOf gid ds os = some [] := by
  induction os with
  | nil => simp [rulesToDeleteOf]
  | cons o rest ih =>
    obtain ⟨f, hf, hd⟩ := h o (by simp)
    have hrest := ih fun o ho => h o (by simp [ho])
    simp [rulesToDeleteOf, anyDesiredMatches_eq hf, hrest, hd]

theorem firstObservedMatch_mem {r : resolvedSecurityGroupRuleSpec}
    {os : List SecurityGroupRuleStatus} {o : SecurityGroupRuleStatus}
    (h : firstObservedMatch r os = some (some o)) :
    o ∈ os ∧ Matches r o = some true := by
  induction os with
  | nil => simp [firstObservedMatch] at h
  | cons o0 rest ih =>
    simp only [firstObservedMatch, Option.bind_eq_bind] at h
    cases hm : Matches r o0 with
    | none => rw [hm] at h; simp at h
    | some b =>
      rw [hm] at h
      cases b with
      | true => simp at h; subst h; exact ⟨by simp, hm⟩
      | false =>
        simp at h
        obtain ⟨ho, hmm⟩ := ih h
        exact ⟨by simp [ho], hmm⟩

theorem firstObservedMatch_none {r : resolvedSecurityGroupRuleSpec}
    {os : List SecurityGroupRuleStatus}
    (h : firstObservedMatch r os = some none) :
    ∀ o ∈ os, Matches r o = some false := by
  induction os with
  | nil => simp
  | cons o0 rest ih =>
    simp only [firstObservedMatch, Option.bind_eq_bind] at h
    cases hm : Matches r o0 with
    | none => rw [hm] at h; simp at h
    | some b =>
      rw [hm] at h
      cases b with
      | true => simp at h
      | false =>
        simp at h
        intro o ho
        rcases List.mem_cons.mp ho with rfl | ho
        · exact hm
        · exact ih h o ho

/-- On a list of well-formed observed rules containing a match, the inner loop
finds one. -/
theorem firstObservedMatch_exists {r : resolvedSecurityGroupRuleSpec}
    {os : List SecurityGroupRuleStatus}
    (hwf : ∀ o ∈ os, (statusFields o).isSome)
    (hex : ∃ o ∈ os, Matches r o = some true) :
    ∃ o, firstObservedMatch r os = some (some o) := by
  induction os with
  | nil => simp at hex
  | cons o0 rest ih =>
    obtain ⟨f0, hf0⟩ := Option.isSome_iff_exists.mp (hwf o0 (by simp))
    simp only [firstObservedMatch, Option.bind_eq_bind,
      Matches_eq_of_statusFields hf0 r, Option.some_bind]
    by_cases h0 : specFields r = f0
    · exact ⟨o0, by simp [h0]⟩
    · rw [if_neg (by simpa using h0)]
      apply ih (fun o ho => hwf o (by simp [ho]))
      rcases hex with ⟨o, ho, hmo⟩
      rcases List.mem_cons.mp ho with rfl | ho
      · rw [Matches_eq_of_statusFields hf0] at hmo
        simp [h0] at hmo
      · exact ⟨o, ho, hmo⟩

/-- Elimination principle for one step of `splitDesired`. -/
theorem splitDesired_cons_elim {gid : String} {os : List SecurityGroupRuleStatus}
    {d : resolvedSecurityGroupRuleSpec} {ds : List resolvedSecurityGroupRuleSpec}
    {tc : List resolvedSecurityGroupRuleSpec} {m : List SecurityGroupRuleStatus}
    (h : splitDesired gid os (d :: ds) = some (tc, m)) :
    ∃ fm tc' m', firstObservedMatch (resolveSelf gid d) os = some fm ∧
      splitDesired gid os ds = some (tc', m') ∧
      ((∃ o, fm = some o ∧ tc = tc' ∧ m = o :: m') ∨ (fm = none ∧ tc = d :: tc' ∧ m = m')) := by
  simp only [splitDesired, Option.bind_eq_bind] at h
  cases hfm : firstObservedMatch (resolveSelf gid d) os with
  | none => rw [hfm] at h; simp at h
  | some fm =>
    rw [hfm] at h
    cases hrest : splitDesired gid os ds with
    | none => rw [hrest] at h; simp at h
    | some p =>
      obtain ⟨tc', m'⟩ := p
      rw [hrest] at h
      refine ⟨fm, tc', m', rfl, rfl, ?_⟩
      cases fm with
      | none =>
        simp only [Option.some_bind, Option.pure_def, Option.some.injEq, Prod.mk.injEq] at h
        right
        refine ⟨rfl, ?_, ?_⟩ <;> simp_all
      | some o =>
        simp only [Option.some_bind, Option.pure_def, Option.some.injEq, Prod.mk.injEq] at h
        left
        refine ⟨o, rfl, ?_, ?_⟩ <;> simp_all

/-- The creation pass is content-preserving: matched statuses plus unmatched
desired rules are, by content, a permutation of the desired rules. -/
theorem splitDesired_perm {gid : String} {os : List SecurityGroupRuleStatus}
    {ds tc : List resolvedSecurityGroupRuleSpec} {m : List SecurityGroupRuleStatus}
    (h : splitDesired gid os ds = some (tc, m)) :
    List.Perm
      (m.map statusFields ++ tc.map fun d => some (specFields (resolveSelf gid d)))
      (ds.map fun d => some (specFields (resolveSelf gid d))) := by
  induction ds generalizing tc m with
  | nil =>
    simp only [splitDesired, Option.some.injEq] at h
    obtain ⟨rfl, rfl⟩ := (Prod.mk.injEq _ _ _ _).mp h.symm
    simp
  | cons d rest ih =>
    obtain ⟨fm, tc', m', hfm, hrest, hcase⟩ := splitDesired_cons_elim h
    rcases hcase with ⟨o, rfl, rfl, rfl⟩ | ⟨rfl, rfl, rfl⟩
    · have ho := (firstObservedMatch_mem hfm).2
      have : statusFields o = some (specFields (resolveSelf gid d)) :=
        statusFields_of_Matches_true ho
      simpa [this] using (ih hrest).cons (some (specFields (resolveSelf gid d)))
    · simp only [List.map_cons]
      refine List.Perm.trans ?_ ((ih hrest).cons (some (specFields (resolveSelf gid d))))
      exact List.perm_middle

theorem splitDesired_matched_mem {gid : String} {os : List SecurityGroupRuleStatus}
    {ds tc : List resolvedSecurityGroupRuleSpec} {m : List SecurityGroupRuleStatus}
    (h : splitDesired gid os ds = some (tc, m)) :
    ∀ o ∈ m, o ∈ os ∧ ∃ d ∈ ds, Matches (resolveSelf gid d) o = some true := by
  induction ds generalizing tc m with
  | nil =>
    simp only [splitDesired, Option.some.injEq] at h
    obtain ⟨rfl, rfl⟩ := (Prod.mk.injEq _ _ _ _).mp h.symm
    simp
  | cons d rest ih =>
    obtain ⟨fm, tc', m', hfm, hrest, hcase⟩ := splitDesired_cons_elim h
    rcases hcase with ⟨o0, rfl, rfl, rfl⟩ | ⟨rfl, rfl, rfl⟩
    · intro o ho
      rcases List.mem_cons.mp ho with rfl | ho
      · obtain ⟨hmem, hm⟩ := firstObservedMatch_mem hfm
        exact ⟨hmem, d, by simp, hm⟩
      · obtain ⟨hmem, d', hd', hm⟩ := ih hrest o ho
        exact ⟨hmem, d', by simp [hd'], hm⟩
    · intro o ho
      obtain ⟨hmem, d', hd', hm⟩ := ih hrest o ho
      exact ⟨hmem, d', by simp [hd'], hm⟩

theorem splitDesired_toCreate_mem {gid : String} {os : List SecurityGroupRuleStatus}
    {ds tc : List resolvedSecurityGroupRuleSpec} {m : List SecurityGroupRuleStatus}
    (h : splitDesired gid os ds = some (tc, m)) :
    ∀ d ∈ tc, d ∈ ds := by
  induction ds generalizing tc m with
  | nil =>
    simp only [splitDesired, Option.some.injEq] at h
    obtain ⟨rfl, rfl⟩ := (Prod.mk.injEq _ _ _ _).mp h.symm
    simp
  | cons d rest ih =>
    obtain ⟨fm, tc', m', hfm, hrest, hcase⟩ := splitDesired_cons_elim h
    rcases hcase with ⟨o0, rfl, rfl, rfl⟩ | ⟨rfl, rfl, rfl⟩
    · intro d' hd'
      exact List.mem_cons_of_mem _ (ih hrest d' hd')
    · intro d' hd'
      rcases List.mem_cons.mp hd' with rfl | hd'
      · simp
      · exact List.mem_cons_of_mem _ (ih hrest d' hd')

/-- Every desired rule whose first observed match exists has that match
carried into the reconciled list. -/
theorem splitDesired_carried {gid : String} {os : List SecurityGroupRuleStatus}
    {ds tc : List resolvedSecurityGroupRuleSpec} {m : List SecurityGroupRuleStatus}
    (h : splitDesired gid os ds = some (tc, m)) :
    ∀ d ∈ ds, ∀ o, firstObservedMatch (resolveSelf gid d) os = some (some o) → o ∈ m := by
  induction ds generalizing tc m with
  | nil => simp
  | cons d rest ih =>
    obtain ⟨fm, tc', m', hfm, hrest, hcase⟩ := splitDesired_cons_elim h
    rcases hcase with ⟨o0, rfl, rfl, rfl⟩ | ⟨rfl, rfl, rfl⟩
    · intro d' hd' o ho
      rcases List.mem_cons.mp hd' with rfl | hd'
      · rw [hfm] at ho
        simp only [Option.some.injEq] at ho
        simp [← ho]
      · exact List.mem_cons_of_mem _ (ih hrest d' hd' o ho)
    · intro d' hd' o ho
      rcases List.mem_cons.mp hd' with rfl | hd'
      · rw [hfm] at ho; simp at ho
      · exact ih hrest d' hd' o ho

/-- Every desired rule is accounted for: either an already-existing match was
carried, or the rule is in the creation set. -/
theorem splitDesired_cover {gid : String} {os : List SecurityGroupRuleStatus}
    {ds tc : List resolvedSecurityGroupRuleSpec} {m : List SecurityGroupRuleStatus}
    (h : splitDesired gid os ds = some (tc, m)) :
    ∀ d ∈ ds, (∃ o ∈ m, Matches (resolveSelf gid d) o = some true) ∨ d ∈ tc := by
  induction ds generalizing tc m with
  | nil => simp
  | cons d rest ih =>
    obtain ⟨fm, tc', m', hfm, hrest, hcase⟩ := splitDesired_cons_elim h
    rcases hcase with ⟨o0, rfl, rfl, rfl⟩ | ⟨rfl, rfl, rfl⟩
    · intro d' hd'
      rcases List.mem_cons.mp hd' with rfl | hd'
      · exact Or.inl ⟨o0, by simp, (firstObservedMatch_mem hfm).2⟩
      · rcases ih hrest d' hd' with ⟨o, ho, hm⟩ | htc
        · exact Or.inl ⟨o, by simp [ho], hm⟩
        · exact Or.inr htc
    · intro d' hd'
      rcases List.mem_cons.mp hd' with rfl | hd'
      · exact Or.inr (by simp)
      · rcases ih hrest d' hd' with ⟨o, ho, hm⟩ | htc
        · exact Or.inl ⟨o, ho, hm⟩
        · exact Or.inr (by simp [htc])

/-- On well-formed observed rules, with every desired rule matched somewhere,
the creation pass computes an empty creation set. -/
theorem splitDesired_all_matched {gid : String} {os : List SecurityGroupRuleStatus}
    {ds : List resolvedSecurityGroupRuleSpec}
    (hwf : ∀ o ∈ os, (statusFields o).isSome)
    (hex : ∀ d ∈ ds, ∃ o ∈ os, Matches (resolveSelf gid d) o = some true) :
    ∃ m, splitDesired gid os ds = some ([], m) := by
  induction ds with
  | nil => exact ⟨[], rfl⟩
  | cons d rest ih =>
    obtain ⟨o0, ho0⟩ := firstObservedMatch_exists hwf (hex d (by simp))
    obtain ⟨m', hm'⟩ := ih fun d' hd' => hex d' (by simp [hd'])
    refine ⟨o0 :: m', ?_⟩
    simp [splitDesired, ho0, hm']

/-! ### Lemmas on the mutation phase -/

theorem runDeletes_none {client : NetworkClient} {ids : List String}
    {tr : List ProviderCall} (h : runDeletes client ids = (tr, none)) :
    tr = ids.map ProviderCall.deleteCall ∧ ∀ x ∈ tr, callSucceeds client x := by
  induction ids generalizing tr with
  | nil =>
    simp only [runDeletes, Prod.mk.injEq] at h
    simp [← h.1]
  | cons id rest ih =>
    simp only [runDeletes] at h
    cases hdel : client.DeleteSecGroupRule id with
    | error e => rw [hdel] at h; simp at h
    | ok u =>
      rw [hdel] at h
      rcases hrec : runDeletes client rest with ⟨tr', res'⟩
      rw [hrec] at h
      simp only [Prod.mk.injEq] at h
      obtain ⟨htr, hres⟩ := h
      subst htr
      obtain ⟨htr', hsucc⟩ := ih (hres ▸ hrec)
      subst htr'
      refine ⟨by simp, ?_⟩
      intro x hx
      rcases List.mem_cons.mp hx with rfl | hx
      · cases u; exact hdel
      · exact hsucc x hx

theorem runDeletes_some {client : NetworkClient} {ids : List String}
    {tr : List ProviderCall} {e : Err} (h : runDeletes client ids = (tr, some e)) :
    (∀ x ∈ tr, x.isDelete = true) ∧
    ∃ pre last, tr = pre ++ [last] ∧ callFails client e last ∧
      ∀ x ∈ pre, callSucceeds client x := by
  induction ids generalizing tr with
  | nil => simp [runDeletes] at h
  | cons id rest ih =>
    simp only [runDeletes] at h
    cases hdel : client.DeleteSecGroupRule id with
    | error e0 =>
      rw [hdel] at h
      simp only [Prod.mk.injEq, Option.some.injEq] at h
      obtain ⟨htr, rfl⟩ := h
      subst htr
      exact ⟨by simp [ProviderCall.isDelete], [], ProviderCall.deleteCall id,
        by simp, hdel, by simp⟩
    | ok u =>
      rw [hdel] at h
      rcases hrec : runDeletes client rest with ⟨tr', res'⟩
      rw [hrec] at h
      simp only [Prod.mk.injEq] at h
      obtain ⟨htr, hres⟩ := h
      subst htr
      obtain ⟨hdels, pre, last, htr', hfail, hsucc⟩ := ih (hres ▸ hrec)
      subst htr'
      refine ⟨?_, ProviderCall.deleteCall id :: pre, last, by simp, hfail, ?_⟩
      · intro x hx
        rcases List.mem_cons.mp hx with rfl | hx
        · rfl
        · exact hdels x hx
      · intro x hx
        rcases List.mem_cons.mp hx with rfl | hx
        · cases u; exact hdel
        · exact hsucc x hx

theorem runCreates_ok {client : NetworkClient} {gid : String}
    {rs : List resolvedSecurityGroupRuleSpec} {tr : List ProviderCall}
    {created : List SecurityGroupRuleStatus}
    (h : runCreates client gid rs = (tr, .ok created)) :
    tr = rs.map (fun r => ProviderCall.createCall (createRuleOpts gid (resolveSelf gid r))) ∧
    (∀ x ∈ tr, callSucceeds client x) ∧
    ∃ ws : List SecGroupRule,
      created = ws.map convertOSSecGroupRuleToConfigSecGroupRule ∧
      List.Forall₂ (fun (r : resolvedSecurityGroupRuleSpec) (w : SecGroupRule) =>
        client.CreateSecGroupRule (createRuleOpts gid (resolveSelf gid r)) = .ok w) rs ws := by
  induction rs generalizing tr created with
  | nil =>
    simp only [runCreates, Prod.mk.injEq] at h
    obtain ⟨htr, hc⟩ := h
    cases hc
    subst htr
    exact ⟨by simp, by simp, [], by simp, List.Forall₂.nil⟩
  | cons r rest ih =>
    simp only [runCreates, createRule] at h
    cases hcr : client.CreateSecGroupRule (createRuleOpts gid (resolveSelf gid r)) with
    | error e => rw [hcr] at h; simp at h
    | ok w =>
      rw [hcr] at h
      rcases hrec : runCreates client gid rest with ⟨tr', res'⟩
      rw [hrec] at h
      cases res' with
      | error e => simp at h
      | ok created' =>
        simp only [Prod.mk.injEq] at h
        obtain ⟨htr, hc⟩ := h
        cases hc
        subst htr
        obtain ⟨htr', hsucc, ws, hws, hfa⟩ := ih hrec
        subst htr' hws
        refine ⟨by simp, ?_, w :: ws, by simp, List.Forall₂.cons hcr hfa⟩
        intro x hx
        rcases List.mem_cons.mp hx with rfl | hx
        · exact ⟨w, hcr⟩
        · exact hsucc x hx

theorem runCreates_err {client : NetworkClient} {gid : String}
    {rs : List resolvedSecurityGroupRuleSpec} {tr : List ProviderCall} {e : Err}
    (h : runCreates client gid rs = (tr, .error e)) :
    (∀ x ∈ tr, x.isDelete = false) ∧
    ∃ pre last, tr = pre ++ [last] ∧ callFails client e last ∧
      ∀ x ∈ pre, callSucceeds client x := by
  induction rs generalizing tr with
  | nil => simp [runCreates] at h
  | cons r rest ih =>
    simp only [runCreates, createRule] at h
    cases hcr : client.CreateSecGroupRule (createRuleOpts gid (resolveSelf gid r)) with
    | error e0 =>
      rw [hcr] at h
      simp only [Prod.mk.injEq, Except.error.injEq] at h
      obtain ⟨htr, rfl⟩ := h
      subst htr
      exact ⟨by simp [ProviderCall.isDelete],
        [], ProviderCall.createCall (createRuleOpts gid (resolveSelf gid r)),
        by simp, ⟨e0, hcr, rfl⟩, by simp⟩
    | ok w =>
      rw [hcr] at h
      rcases hrec : runCreates client gid rest with ⟨tr', res'⟩
      rw [hrec] at h
      cases res' with
      | ok created' => simp at h
      | error e' =>
        simp only [Prod.mk.injEq, Except.error.injEq] at h
        obtain ⟨htr, rfl⟩ := h
        subst htr
        obtain ⟨hcrs, pre, last, htr', hfail, hsucc⟩ := ih hrec
        subst htr'
        refine ⟨?_,
          ProviderCall.createCall (createRuleOpts gid (resolveSelf gid r)) :: pre, last,
          by simp, hfail, ?_⟩
        · intro x hx
          rcases List.mem_cons.mp hx with rfl | hx
          · rfl
          · exact hcrs x hx
        · intro x hx
          rcases List.mem_cons.mp hx with rfl | hx
          · exact ⟨w, hcr⟩
          · exact hsucc x hx

theorem runCreates_mem {client : NetworkClient} {gid : String}
    {rs : List resolvedSecurityGroupRuleSpec} {tr : List ProviderCall}
    {res : Except Err (List SecurityGroupRuleStatus)}
    (h : runCreates client gid rs = (tr, res)) :
    ∀ opts, ProviderCall.createCall opts ∈ tr →
      ∃ r ∈ rs, opts = createRuleOpts gid (resolveSelf gid r) := by
  induction rs generalizing tr res with
  | nil =>
    simp only [runCreates, Prod.mk.injEq] at h
    obtain ⟨htr, _⟩ := h
    subst htr
    simp
  | cons r rest ih =>
    simp only [runCreates, createRule] at h
    cases hcr : client.CreateSecGroupRule (createRuleOpts gid (resolveSelf gid r)) with
    | error e0 =>
      rw [hcr] at h
      simp only [Prod.mk.injEq] at h
      obtain ⟨htr, _⟩ := h
      subst htr
      intro opts hopts
      simp only [List.mem_singleton, ProviderCall.createCall.injEq] at hopts
      exact ⟨r, by simp, hopts⟩
    | ok w =>
      rw [hcr] at h
      rcases hrec : runCreates client gid rest with ⟨tr', res'⟩
      rw [hrec] at h
      have htr : tr = ProviderCall.createCall (createRuleOpts gid (resolveSelf gid r)) :: tr' := by
        cases res' <;> simp only [Prod.mk.injEq] at h <;> exact h.1.symm
      subst htr
      intro opts hopts
      rcases List.mem_cons.mp hopts with heq | hopts
      · injection heq with heq
        exact ⟨r, by simp, heq⟩
      · obtain ⟨r', hr', hopts'⟩ := ih hrec opts hopts
        exact ⟨r', by simp [hr'], hopts'⟩

/-- With an echoing provider, the rule statuses produced by the creation loop
carry exactly the resolved desired contents. -/
theorem created_fields_of_echo {client : NetworkClient} {gid : String}
    (hecho : EchoClient client) {rs : List resolvedSecurityGroupRuleSpec}
    {ws : List SecGroupRule}
    (hfa : List.Forall₂ (fun (r : resolvedSecurityGroupRuleSpec) (w : SecGroupRule) =>
      client.CreateSecGroupRule (createRuleOpts gid (resolveSelf gid r)) = .ok w) rs ws) :
    (ws.map convertOSSecGroupRuleToConfigSecGroupRule).map statusFields =
      rs.map fun r => some (specFields (resolveSelf gid r)) := by
  induction hfa with
  | nil => simp
  | cons hrw _ ih =>
    simp only [List.map_cons, ih, List.cons.injEq, and_true]
    rw [statusFields_convert_wire, hecho _ _ hrw, optsFields_createRuleOpts]

theorem applyGroupRules_eq_delete_err {client : NetworkClient}
    {O : SecurityGroupStatus} {dels : List String}
    {tc : List resolvedSecurityGroupRuleSpec} {m : List SecurityGroupRuleStatus}
    {dt : List ProviderCall} {e : Err}
    (hrd : runDeletes client dels = (dt, some e)) :
    applyGroupRules client O dels tc m = (dt, .error e) := by
  unfold applyGroupRules
  rw [hrd]

theorem applyGroupRules_eq_create_err {client : NetworkClient}
    {O : SecurityGroupStatus} {dels : List String}
    {tc : List resolvedSecurityGroupRuleSpec} {m : List SecurityGroupRuleStatus}
    {dt ct : List ProviderCall} {e : Err}
    (hrd : runDeletes client dels = (dt, none))
    (hrc : runCreates client O.ID tc = (ct, .error e)) :
    applyGroupRules client O dels tc m = (dt ++ ct, .error e) := by
  unfold applyGroupRules
  rw [hrd, hrc]

theorem applyGroupRules_eq_ok {client : NetworkClient}
    {O : SecurityGroupStatus} {dels : List String}
    {tc : List resolvedSecurityGroupRuleSpec} {m : List SecurityGroupRuleStatus}
    {dt ct : List ProviderCall} {created : List SecurityGroupRuleStatus}
    (hrd : runDeletes client dels = (dt, none))
    (hrc : runCreates client O.ID tc = (ct, .ok created)) :
    applyGroupRules client O dels tc m =
      (dt ++ ct, .ok (if (m ++ created).isEmpty then emptySecurityGroupStatus
        else { O with Rules := m ++ created })) := by
  unfold applyGroupRules
  rw [hrd, hrc]
  by_cases hE : (m ++ created).isEmpty <;> simp [hE]

theorem applyGroupRules_ok {client : NetworkClient} {O : SecurityGroupStatus}
    {dels : List String} {tc : List resolvedSecurityGroupRuleSpec}
    {m : List SecurityGroupRuleStatus} {T : List ProviderCall}
    {st : SecurityGroupStatus}
    (h : applyGroupRules client O dels tc m = (T, .ok st)) :
    ∃ created,
      runDeletes client dels = (dels.map ProviderCall.deleteCall, none) ∧
      runCreates client O.ID tc =
        (tc.map fun r => ProviderCall.createCall (createRuleOpts O.ID (resolveSelf O.ID r)),
         .ok created) ∧
      T = dels.map ProviderCall.deleteCall ++
        tc.map (fun r => ProviderCall.createCall (createRuleOpts O.ID (resolveSelf O.ID r))) ∧
      st = (if (m ++ created).isEmpty then emptySecurityGroupStatus
            else { O with Rules := m ++ created }) := by
  rcases hrd : runDeletes client dels with ⟨dt, de⟩
  cases de with
  | some e => rw [applyGroupRules_eq_delete_err hrd] at h; simp at h
  | none =>
    rcases hrc : runCreates client O.ID tc with ⟨ct, cr⟩
    cases cr with
    | error e => rw [applyGroupRules_eq_create_err hrd hrc] at h; simp at h
    | ok created =>
      rw [applyGroupRules_eq_ok hrd hrc] at h
      simp only [Prod.mk.injEq, Except.ok.injEq] at h
      obtain ⟨hdt, _⟩ := runDeletes_none hrd
      obtain ⟨hct, _, _⟩ := runCreates_ok hrc
      subst hdt hct
      obtain ⟨hT, hst⟩ := h
      exact ⟨created, rfl, rfl, hT.symm, hst.symm⟩


/-- Trace-shape facts about one mutation phase, for any outcome: the trace is
deletions followed by creations; on error the failing call is the last call
issued and every earlier call succeeded; every create call in the trace stems
from a rule of the creation set. -/
theorem applyGroupRules_trace {client : NetworkClient} {O : SecurityGroupStatus}
    {dels : List String} {tc : List resolvedSecurityGroupRuleSpec}
    {m : List SecurityGroupRuleStatus} {T : List ProviderCall}
    {res : Except Err SecurityGroupStatus}
    (h : applyGroupRules client O dels tc m = (T, res)) :
    (∃ dpart cpart, T = dpart ++ cpart ∧ (∀ x ∈ dpart, x.isDelete = true) ∧
      (∀ x ∈ cpart, x.isDelete = false)) ∧
    (∀ e, res = .error e → ∃ pre last, T = pre ++ [last] ∧ callFails client e last ∧
      ∀ x ∈ pre, callSucceeds client x) ∧
    (∀ opts, ProviderCall.createCall opts ∈ T →
      ∃ r ∈ tc, opts = createRuleOpts O.ID (resolveSelf O.ID r)) := by
  rcases hrd : runDeletes client dels with ⟨dt, de⟩
  cases de with
  | some e0 =>
    rw [applyGroupRules_eq_delete_err hrd] at h
    simp only [Prod.mk.injEq] at h
    obtain ⟨hT, hres⟩ := h
    subst hT
    obtain ⟨hdels, pre, last, htr, hfail, hsucc⟩ := runDeletes_some hrd
    refine ⟨⟨dt, [], by simp, hdels, by simp⟩, ?_, ?_⟩
    · intro e he
      rw [← hres] at he
      cases he
      exact ⟨pre, last, htr, hfail, hsucc⟩
    · intro opts hopts
      exact absurd (hdels _ hopts) (by simp [ProviderCall.isDelete])
  | none =>
    rcases hrc : runCreates client O.ID tc with ⟨ct, cr⟩
    obtain ⟨hdt, hdsucc⟩ := runDeletes_none hrd
    have hdel_all : ∀ x ∈ dt, x.isDelete = true := by
      subst hdt; simp [ProviderCall.isDelete]
    have hTres : T = dt ++ ct ∧
        ((∃ e0, cr = .error e0 ∧ res = .error e0) ∨ ∃ stv, res = .ok stv) := by
      cases cr with
      | error e0 =>
        rw [applyGroupRules_eq_create_err hrd hrc] at h
        simp only [Prod.mk.injEq] at h
        exact ⟨h.1.symm, Or.inl ⟨e0, rfl, h.2.symm⟩⟩
      | ok created =>
        rw [applyGroupRules_eq_ok hrd hrc] at h
        simp only [Prod.mk.injEq] at h
        exact ⟨h.1.symm, Or.inr ⟨_, h.2.symm⟩⟩
    obtain ⟨hT, hres⟩ := hTres
    subst hT
    have hcmem : ∀ opts, ProviderCall.createCall opts ∈ dt ++ ct →
        ∃ r ∈ tc, opts = createRuleOpts O.ID (resolveSelf O.ID r) := by
      intro opts hopts
      rcases List.mem_append.mp hopts with hd | hc
      · exact absurd (hdel_all _ hd) (by simp [ProviderCall.isDelete])
      · exact runCreates_mem hrc opts hc
    have hcdel : ∀ x ∈ ct, x.isDelete = false := by
      cases cr with
      | error e0 => exact (runCreates_err hrc).1
      | ok created =>
        obtain ⟨hct, _, _⟩ := runCreates_ok hrc
        subst hct
        simp [ProviderCall.isDelete]
    refine ⟨⟨dt, ct, rfl, hdel_all, hcdel⟩, ?_, hcmem⟩
    intro e he
    rcases hres with ⟨e0, hcr0, hres0⟩ | ⟨stv, hstv⟩
    · subst hcr0
      rw [hres0] at he
      cases he
      obtain ⟨_, pre, last, htr, hfail, hsucc⟩ := runCreates_err hrc
      refine ⟨dt ++ pre, last, by simp [htr], hfail, ?_⟩
      intro x hx
      rcases List.mem_append.mp hx with hx | hx
      · exact hdsucc x hx
      · exact hsucc x hx
    · rw [hstv] at he
      cases he

theorem reconcileGroupRules_elim {client : NetworkClient} {desired : securityGroupSpec}
    {observed : SecurityGroupStatus}
    {x : List ProviderCall × Except Err SecurityGroupStatus}
    (h : reconcileGroupRules client desired observed = some x) :
    ∃ dels tc m,
      rulesToDeleteOf observed.ID desired.Rules observed.Rules = some dels ∧
      splitDesired observed.ID observed.Rules desired.Rules = some (tc, m) ∧
      x = applyGroupRules client observed dels tc m := by
  simp only [reconcileGroupRules, Option.bind_eq_bind] at h
  cases h1 : rulesToDeleteOf observed.ID desired.Rules observed.Rules with
  | none => rw [h1] at h; simp at h
  | some dels =>
    rw [h1] at h
    cases h2 : splitDesired observed.ID observed.Rules desired.Rules with
    | none => rw [h2] at h; simp at h
    | some p =>
      obtain ⟨tc, m⟩ := p
      rw [h2] at h
      simp only [Option.some_bind, Option.pure_def, Option.some.injEq] at h
      exact ⟨dels, tc, m, rfl, rfl, h.symm⟩

theorem reconcileGroupRules_intro {client : NetworkClient} {desired : securityGroupSpec}
    {observed : SecurityGroupStatus} {dels : List String}
    {tc : List resolvedSecurityGroupRuleSpec} {m : List SecurityGroupRuleStatus}
    (h1 : rulesToDeleteOf observed.ID desired.Rules observed.Rules = some dels)
    (h2 : splitDesired observed.ID observed.Rules desired.Rules = some (tc, m)) :
    reconcileGroupRules client desired observed =
      some (applyGroupRules client observed dels tc m) := by
  simp [reconcileGroupRules, h1, h2]

theorem echoClient_echo : EchoClient echoClient := by
  intro opts w h
  injection h with h
  subst h
  rfl

theorem splitDesired_fm {gid : String} {os : List SecurityGroupRuleStatus}
    {ds tc : List resolvedSecurityGroupRuleSpec} {m : List SecurityGroupRuleStatus}
    (h : splitDesired gid os ds = some (tc, m)) :
    ∀ d ∈ ds, ∃ fm, firstObservedMatch (resolveSelf gid d) os = some fm := by
  induction ds generalizing tc m with
  | nil => simp
  | cons d rest ih =>
    obtain ⟨fm, tc', m', hfm, hrest, _⟩ := splitDesired_cons_elim h
    intro d' hd'
    rcases List.mem_cons.mp hd' with rfl | hd'
    · exact ⟨fm, hfm⟩
    · exact ih hrest d' hd'

theorem rules_of_status_if {O : SecurityGroupStatus}
    {m created : List SecurityGroupRuleStatus} {st : SecurityGroupStatus}
    (hst : st = (if (m ++ created).isEmpty then emptySecurityGroupStatus
      else { O with Rules := m ++ created })) :
    st.Rules = m ++ created := by
  subst hst
  split
  · next hE => simpa [emptySecurityGroupStatus] using (List.isEmpty_iff.mp hE).symm
  · rfl

/-! ### Claim theorems -/

/-- C6: whenever `reconcileGroupRules` succeeds and the reconciled rule list is
empty (no matched and no created rules), it returns the zero-value
`SecurityGroupStatus` (empty ID, empty name, no rules) rather than the
observed group with an empty rule list. -/
theorem reconcileGroupRules_empty_sentinel
    {client : NetworkClient} {desired : securityGroupSpec}
    {observed : SecurityGroupStatus} {T : List ProviderCall}
    {st : SecurityGroupStatus}
    (h : reconcileGroupRules client desired observed = some (T, .ok st))
    (hempty : st.Rules = []) :
    st = emptySecurityGroupStatus := by
  obtain ⟨dels, tc, m, h1, h2, hx⟩ := reconcileGroupRules_elim h
  obtain ⟨created, _, _, _, hst⟩ := applyGroupRules_ok hx.symm
  have hr := rules_of_status_if hst
  rw [hr] at hempty
  rw [hst]
  simp [hempty]

theorem reconcileGroupRules_empty_sentinel_witness :
    emptySecurityGroupStatus = emptySecurityGroupStatus :=
  reconcileGroupRules_empty_sentinel
    (show reconcileGroupRules echoClient emptyDesired observedOneRule =
      some ([ProviderCall.deleteCall "r1"], .ok emptySecurityGroupStatus) from rfl)
    rfl

/-- C8: within one reconciliation pass the trace of mutating provider calls is
all rule deletions followed by all rule creations; if the result is a provider
error, the failing call is the last call issued, every earlier call of the
pass succeeded, and no further (in particular no compensating) call appears in
the trace. -/
theorem reconcileGroupRules_ordering
    {client : NetworkClient} {desired : securityGroupSpec}
    {observed : SecurityGroupStatus} {T : List ProviderCall}
    {res : Except Err SecurityGroupStatus}
    (h : reconcileGroupRules client desired observed = some (T, res)) :
    (∃ dpart cpart, T = dpart ++ cpart ∧ (∀ x ∈ dpart, x.isDelete = true) ∧
      (∀ x ∈ cpart, x.isDelete = false)) ∧
    (∀ e, res = .error e → ∃ pre last, T = pre ++ [last] ∧ callFails client e last ∧
      ∀ x ∈ pre, callSucceeds client x) := by
  obtain ⟨dels, tc, m, h1, h2, hx⟩ := reconcileGroupRules_elim h
  obtain ⟨ho, hf, _⟩ := applyGroupRules_trace hx.symm
  exact ⟨ho, hf⟩

theorem reconcileGroupRules_ordering_witness :
    (∃ dpart cpart, ([ProviderCall.deleteCall "r1"] : List ProviderCall) = dpart ++ cpart ∧
      (∀ x ∈ dpart, x.isDelete = true) ∧ (∀ x ∈ cpart, x.isDelete = false)) ∧
    (∀ e, (Except.error "boom" : Except Err SecurityGroupStatus) = .error e →
      ∃ pre last, ([ProviderCall.deleteCall "r1"] : List ProviderCall) = pre ++ [last] ∧
        callFails failDeleteClient e last ∧ ∀ x ∈ pre, callSucceeds failDeleteClient x) :=
  reconcileGroupRules_ordering
    (show reconcileGroupRules failDeleteClient emptyDesired observedOneRule =
      some ([ProviderCall.deleteCall "r1"], .error "boom") from rfl)

/-- C7: a desired rule with the `self` sentinel, resolved against group ID
`g`, matches exactly the observed rules whose remote group ID is `g` and whose
other seven fields equal the desired rule's; the provider-assigned rule ID
never takes part in the comparison; and every create call issued by
`reconcileGroupRules` carries the concrete observed group ID — a `self`
desired rule is created with `RemoteGroupID = observed.ID`, never the literal
sentinel. -/
theorem Matches_self_resolution :
    (∀ (g : String) (d : resolvedSecurityGroupRuleSpec) (o : SecurityGroupRuleStatus),
      d.RemoteGroupID = remoteGroupIDSelf →
      (Matches (resolveSelf g d) o = some true ↔
        statusFields o = some { specFields d with RemoteGroupID := g })) ∧
    (∀ (r : resolvedSecurityGroupRuleSpec) (o : SecurityGroupRuleStatus) (x : String),
      Matches r { o with ID := x } = Matches r o) ∧
    (∀ (client : NetworkClient) (desired : securityGroupSpec)
      (observed : SecurityGroupStatus) (T : List ProviderCall)
      (res : Except Err SecurityGroupStatus),
      observed.ID ≠ remoteGroupIDSelf →
      reconcileGroupRules client desired observed = some (T, res) →
      ∀ opts, ProviderCall.createCall opts ∈ T →
        opts.SecGroupID = observed.ID ∧ opts.RemoteGroupID ≠ remoteGroupIDSelf ∧
        ∃ d ∈ desired.Rules,
          opts = createRuleOpts observed.ID (resolveSelf observed.ID d) ∧
          (d.RemoteGroupID = remoteGroupIDSelf → opts.RemoteGroupID = observed.ID)) := by
  refine ⟨?_, ?_, ?_⟩
  · intro g d o hd
    have hsf : specFields (resolveSelf g d) = { specFields d with RemoteGroupID := g } := by
      simp [resolveSelf, hd, specFields]
    constructor
    · intro h
      rw [← hsf]
      exact statusFields_of_Matches_true h
    · intro h
      rw [Matches_eq_of_statusFields h]
      simp [hsf]
  · intro r o x
    obtain ⟨oid, odir, od, oe, omin, omax, op, org, oip⟩ := o
    rfl
  · intro client desired observed T res hneq h opts hmem
    obtain ⟨dels, tc, m, h1, h2, hx⟩ := reconcileGroupRules_elim h
    obtain ⟨_, _, hcm⟩ := applyGroupRules_trace hx.symm
    obtain ⟨r, hr, rfl⟩ := hcm opts hmem
    refine ⟨rfl, ?_, r, splitDesired_toCreate_mem h2 r hr, rfl, ?_⟩
    · by_cases hc : r.RemoteGroupID = remoteGroupIDSelf <;>
        simp [createRuleOpts, resolveSelf, hc, hneq]
    · intro hds
      simp [createRuleOpts, resolveSelf, hds]

theorem Matches_self_resolution_witness :
    Matches (resolveSelf "gid-1" sampleSelfRule)
      (ruleStatusOf "r-self" (resolveSelf "gid-1" sampleSelfRule)) = some true :=
  (Matches_self_resolution.1 "gid-1" sampleSelfRule
    (ruleStatusOf "r-self" (resolveSelf "gid-1" sampleSelfRule)) rfl).mpr (by decide)

/-- C1 counterexample: when the observed group holds two structurally
identical rules (IDs `r1`, `r2`) both matching the single desired rule, the
pass succeeds with no provider calls, yet the observed rule `r2` — which
matches a desired rule — is not carried into the result (only the first match
`r1` is). -/
theorem reconcileGroupRules_dup_not_carried :
    reconcileGroupRules echoClient dupDesired dupObserved =
      some ([], .ok { ID := "gid-1", Name := "g", Rules := [ruleStatusOf "r1" sampleRuleB] }) ∧
    ruleStatusOf "r2" sampleRuleB ∈ dupObserved.Rules ∧
    Matches (resolveSelf dupObserved.ID sampleRuleB) (ruleStatusOf "r2" sampleRuleB) =
      some true ∧
    sampleRuleB ∈ dupDesired.Rules ∧
    ruleStatusOf "r2" sampleRuleB ∉
      (SecurityGroupStatus.mk "gid-1" "g" [ruleStatusOf "r1" sampleRuleB]).Rules :=
  ⟨rfl, by decide, by decide, by decide, by decide⟩

/-- C1 (amended): a successful `reconcileGroupRules` pass against an echoing
provider returns a status whose rule contents are, as a multiset, exactly the
desired rule set with `self` resolved to the observed group's ID; and for each
desired rule that some observed rule matches, the first such observed rule is
carried into the result with its original provider-assigned ID (when several
observed rules match the same desired rule, only the first is carried). -/
theorem reconcileGroupRules_convergence
    {client : NetworkClient} {desired : securityGroupSpec}
    {observed : SecurityGroupStatus} {T : List ProviderCall}
    {st : SecurityGroupStatus}
    (_hid : observed.ID ≠ "")
    (hecho : EchoClient client)
    (h : reconcileGroupRules client desired observed = some (T, .ok st)) :
    List.Perm (st.Rules.map statusFields)
      (desired.Rules.map fun d => some (specFields (resolveSelf observed.ID d))) ∧
    ∀ d ∈ desired.Rules,
      (∃ o ∈ observed.Rules, Matches (resolveSelf observed.ID d) o = some true) →
      ∃ o ∈ observed.Rules, o ∈ st.Rules ∧
        Matches (resolveSelf observed.ID d) o = some true := by
  obtain ⟨dels, tc, m, h1, h2, hx⟩ := reconcileGroupRules_elim h
  obtain ⟨created, hrd, hrc, hT, hst⟩ := applyGroupRules_ok hx.symm
  have hstRules : st.Rules = m ++ created := rules_of_status_if hst
  obtain ⟨_, _, ws, hws, hfa⟩ := runCreates_ok hrc
  have hcreated : created.map statusFields =
      tc.map fun r => some (specFields (resolveSelf observed.ID r)) := by
    rw [hws]
    exact created_fields_of_echo hecho hfa
  constructor
  · rw [hstRules, List.map_append, hcreated]
    exact splitDesired_perm h2
  · intro d hd hex
    obtain ⟨fm, hfm⟩ := splitDesired_fm h2 d hd
    cases fm with
    | none =>
      obtain ⟨o, ho, hmo⟩ := hex
      rw [firstObservedMatch_none hfm o ho] at hmo
      simp at hmo
    | some o0 =>
      obtain ⟨ho0, hm0⟩ := firstObservedMatch_mem hfm
      refine ⟨o0, ho0, ?_, hm0⟩
      rw [hstRules]
      exact List.mem_append_left _ (splitDesired_carried h2 d hd o0 hfm)

theorem reconcileGroupRules_convergence_witness :
    List.Perm (convergedExample.Rules.map statusFields)
      (convergeDesired.Rules.map fun d =>
        some (specFields (resolveSelf convergeObserved.ID d))) ∧
    ∀ d ∈ convergeDesired.Rules,
      (∃ o ∈ convergeObserved.Rules,
        Matches (resolveSelf convergeObserved.ID d) o = some true) →
      ∃ o ∈ convergeObserved.Rules, o ∈ convergedExample.Rules ∧
        Matches (resolveSelf convergeObserved.ID d) o = some true :=
  reconcileGroupRules_convergence (by decide) echoClient_echo
    (show reconcileGroupRules echoClient convergeDesired convergeObserved =
      some ([ProviderCall.createCall (createRuleOpts "gid-1" (resolveSelf "gid-1" sampleSelfRule))],
        .ok convergedExample) from rfl)

/-- C2: if one `reconcileGroupRules` pass against an echoing provider succeeds
with result status `st1`, a second pass on the same desired spec and `st1`
issues zero mutating provider calls (its trace is empty: both the deletion set
and the creation set are empty). -/
theorem reconcileGroupRules_idempotent
    {client : NetworkClient} {desired : securityGroupSpec}
    {observed : SecurityGroupStatus} {T : List ProviderCall}
    {st1 : SecurityGroupStatus}
    (hecho : EchoClient client)
    (h : reconcileGroupRules client desired observed = some (T, .ok st1)) :
    ∃ st2, reconcileGroupRules client desired st1 = some ([], .ok st2) := by
  obtain ⟨dels, tc, m, h1, h2, hx⟩ := reconcileGroupRules_elim h
  obtain ⟨created, hrd, hrc, hT, hst⟩ := applyGroupRules_ok hx.symm
  have hstRules : st1.Rules = m ++ created := rules_of_status_if hst
  obtain ⟨_, _, ws, hws, hfa⟩ := runCreates_ok hrc
  have hcreated : created.map statusFields =
      tc.map fun r => some (specFields (resolveSelf observed.ID r)) := by
    rw [hws]
    exact created_fields_of_echo hecho hfa
  have hwf1 : ∀ o ∈ st1.Rules, ∃ f, statusFields o = some f ∧
      ∃ d ∈ desired.Rules, specFields (resolveSelf observed.ID d) = f := by
    intro o ho
    rw [hstRules] at ho
    rcases List.mem_append.mp ho with hom | hoc
    · obtain ⟨_, d, hd, hmt⟩ := splitDesired_matched_mem h2 o hom
      exact ⟨specFields (resolveSelf observed.ID d),
        statusFields_of_Matches_true hmt, d, hd, rfl⟩
    · have hmm : statusFields o ∈ created.map statusFields :=
        List.mem_map_of_mem _ hoc
      rw [hcreated] at hmm
      obtain ⟨r, hr, hsf⟩ := List.mem_map.mp hmm
      exact ⟨specFields (resolveSelf observed.ID r), hsf.symm, r,
        splitDesired_toCreate_mem h2 r hr, rfl⟩
  have hcover : ∀ d ∈ desired.Rules, ∃ o ∈ st1.Rules,
      statusFields o = some (specFields (resolveSelf observed.ID d)) := by
    intro d hd
    rcases splitDesired_cover h2 d hd with ⟨o, hom, hmt⟩ | htc
    · exact ⟨o, by rw [hstRules]; exact List.mem_append_left _ hom,
        statusFields_of_Matches_true hmt⟩
    · have hmm : some (specFields (resolveSelf observed.ID d)) ∈
          tc.map fun r => some (specFields (resolveSelf observed.ID r)) :=
        List.mem_map_of_mem _ htc
      rw [← hcreated] at hmm
      obtain ⟨o, hoc, hsf⟩ := List.mem_map.mp hmm
      exact ⟨o, by rw [hstRules]; exact List.mem_append_right _ hoc, hsf⟩
  by_cases hD : desired.Rules = []
  · have htcm : tc = [] ∧ m = [] := by
      rw [hD] at h2
      simp only [splitDesired, Option.some.injEq] at h2
      exact ⟨((Prod.mk.injEq _ _ _ _).mp h2).1.symm, ((Prod.mk.injEq _ _ _ _).mp h2).2.symm⟩
    have hcr : created = [] := by
      have := congrArg List.length hcreated
      simp [htcm.1] at this
      exact this
    have hst1 : st1 = emptySecurityGroupStatus := by
      rw [hst, htcm.2, hcr]
      simp
    refine ⟨emptySecurityGroupStatus, ?_⟩
    have hdel2 : rulesToDeleteOf st1.ID desired.Rules st1.Rules = some [] := by
      rw [hst1]
      rfl
    have hm2 : splitDesired st1.ID st1.Rules desired.Rules = some ([], []) := by
      rw [hD]
      rfl
    rw [reconcileGroupRules_intro hdel2 hm2,
      applyGroupRules_eq_ok (rfl : runDeletes client [] = ([], none))
        (rfl : runCreates client st1.ID [] = ([], .ok []))]
    rw [hst1]
    rfl
  · have hlen : m.length + tc.length = desired.Rules.length := by
      have := (splitDesired_perm h2).length_eq
      simpa using this
    have hlenc : created.length = tc.length := by
      have := congrArg List.length hcreated
      simpa using this
    have hne : m ++ created ≠ [] := by
      intro hemp
      have : m.length + created.length = 0 := by
        have := congrArg List.length hemp
        simpa using this
      rw [hlenc, hlen] at this
      exact hD (List.eq_nil_of_length_eq_zero this)
    have hst1 : st1 = { observed with Rules := m ++ created } := by
      rw [hst, if_neg (by simpa [List.isEmpty_iff] using hne)]
    have hID : st1.ID = observed.ID := by rw [hst1]
    have hdel2 : rulesToDeleteOf st1.ID desired.Rules st1.Rules = some [] := by
      rw [hID]
      exact rulesToDeleteOf_nil _ _ hwf1
    obtain ⟨m2, hm2⟩ : ∃ m2, splitDesired st1.ID st1.Rules desired.Rules = some ([], m2) := by
      rw [hID]
      apply splitDesired_all_matched
      · intro o ho
        obtain ⟨f, hf, _⟩ := hwf1 o ho
        simp [hf]
      · intro d hd
        obtain ⟨o, ho, hsf⟩ := hcover d hd
        refine ⟨o, ho, ?_⟩
        rw [Matches_eq_of_statusFields hsf]
        simp
    have hfinal : reconcileGroupRules client desired st1 =
        some ([], .ok (if (m2 ++ []).isEmpty then emptySecurityGroupStatus
          else { st1 with Rules := m2 ++ [] })) := by
      rw [reconcileGroupRules_intro hdel2 hm2,
        applyGroupRules_eq_ok (rfl : runDeletes client [] = ([], none))
          (rfl : runCreates client st1.ID [] = ([], .ok []))]
      rfl
    exact ⟨_, hfinal⟩

theorem reconcileGroupRules_idempotent_witness :
    ∃ st2, reconcileGroupRules echoClient convergeDesired convergedExample =
      some ([], .ok st2) :=
  reconcileGroupRules_idempotent echoClient_echo
    (show reconcileGroupRules echoClient convergeDesired convergeObserved =
      some ([ProviderCall.createCall (createRuleOpts "gid-1" (resolveSelf "gid-1" sampleSelfRule))],
        .ok convergedExample) from rfl)

/-- C5: result cardinality contract of the observed-state fetcher: a provider
list error is propagated; zero matches yield the empty status (ID `""`) and
no error; exactly one match is converted (every wire rule becoming a
rule-status); more than one match is an error naming the ambiguous group. -/
theorem getSecurityGroupByName_cardinality (client : NetworkClient) (name : String) :
    (∀ e, client.ListSecGroup name = .error e →
      getSecurityGroupByName client name = .error e) ∧
    (client.ListSecGroup name = .ok [] →
      getSecurityGroupByName client name = .ok emptySecurityGroupStatus) ∧
    (∀ g, client.ListSecGroup name = .ok [g] →
      getSecurityGroupByName client name = .ok (convertOSSecGroupToConfigSecGroup g)) ∧
    (∀ g1 g2 rest, client.ListSecGroup name = .ok (g1 :: g2 :: rest) →
      getSecurityGroupByName client name =
        .error ("more than one security group found named: " ++ name)) := by
  refine ⟨?_, ?_, ?_, ?_⟩
  · intro e he
    simp [getSecurityGroupByName, he]
  · intro h0
    simp [getSecurityGroupByName, h0]
  · intro g hg
    simp [getSecurityGroupByName, hg]
  · intro g1 g2 rest hg
    simp [getSecurityGroupByName, hg]

theorem getSecurityGroupByName_cardinality_witness :
    getSecurityGroupByName twoGroupClient "nm" =
      .error ("more than one security group found named: " ++ "nm") :=
  (getSecurityGroupByName_cardinality twoGroupClient "nm").2.2.2
    sampleGroupA sampleGroupB [] rfl

/-- C9: group lifecycle idempotence: when the fetch finds an existing group
(non-empty ID), `createSecurityGroupIfNotExists` succeeds after the single
read-only list call, issuing no group-create and no tag-replacement call; when
the fetch finds no group (empty ID), `deleteSecurityGroup` succeeds after the
single list call, issuing no group-delete call. -/
theorem groupLifecycle_idempotent (client : NetworkClient) (tags : List String)
    (name : String) :
    (∀ st, getSecurityGroupByName client name = .ok st → st.ID ≠ "" →
      createSecurityGroupIfNotExists client tags name =
        ([GroupCall.listCall name], .ok ())) ∧
    (∀ st, getSecurityGroupByName client name = .ok st → st.ID = "" →
      deleteSecurityGroup client name = ([GroupCall.listCall name], .ok ())) := by
  constructor
  · intro st hst hne
    simp [createSecurityGroupIfNotExists, hst, hne]
  · intro st hst hid
    simp [deleteSecurityGroup, hst, hid]

theorem groupLifecycle_idempotent_witness :
    createSecurityGroupIfNotExists oneGroupClient ["t"] "n" =
      ([GroupCall.listCall "n"], .ok ()) :=
  (groupLifecycle_idempotent oneGroupClient ["t"] "n").1
    (convertOSSecGroupToConfigSecGroup sampleGroupA) rfl (by decide)

/-- C3: evaluating `getAllNodesRules` at a template carrying only a direct
`remoteGroupID` (no `remoteManagedGroups`): contrary to the claim, the
template is rejected with the configuration error "remoteManagedGroups is
required", because `validateRemoteManagedGroups` is invoked unconditionally
and rejects an empty role list; the branch that would append the direct rule
is unreachable. -/
theorem getAllNodesRules_direct_ref_rejected :
    getAllNodesRules [(controlPlaneSuffix, "cp-id"), (workerSuffix, "w-id")]
      [directRuleTemplate] = .error "remoteManagedGroups is required" := rfl

theorem validateGroupsResolve_ok {table : List (String × String)}
    {gs : List String} (h : validateGroupsResolve table gs = .ok ()) :
    ∀ g ∈ gs, (List.lookup g table).isSome := by
  induction gs with
  | nil => simp
  | cons g rest ih =>
    simp only [validateGroupsResolve] at h
    by_cases hg : (List.lookup g table).isSome
    · rw [if_pos hg] at h
      intro g' hg'
      rcases List.mem_cons.mp hg' with rfl | hg'
      · exact hg
      · exact ih h g' hg'
    · rw [if_neg hg] at h
      cases h

theorem validateRemoteManagedGroups_ok {table : List (String × String)}
    {gs : List String} (h : validateRemoteManagedGroups table gs = .ok ()) :
    ∀ g ∈ gs, (List.lookup g table).isSome := by
  simp only [validateRemoteManagedGroups] at h
  by_cases h0 : gs.length = 0
  · rw [if_pos h0] at h
    cases h
  · rw [if_neg h0] at h
    exact validateGroupsResolve_ok h

theorem getAllNodesRules_ok_resolves {table : List (String × String)}
    {ts : List SecurityGroupRuleSpec} {rs : List resolvedSecurityGroupRuleSpec}
    (h : getAllNodesRules table ts = .ok rs) :
    ∀ t ∈ ts, ∀ g ∈ t.RemoteManagedGroups, (List.lookup g table).isSome := by
  induction ts generalizing rs with
  | nil => simp
  | cons t rest ih =>
    simp only [getAllNodesRules] at h
    cases hv : validateRemoteManagedGroups table t.RemoteManagedGroups with
    | error e => rw [hv] at h; cases h
    | ok u =>
      rw [hv] at h
      cases he : expandAllNodesRule table t with
      | error e => rw [he] at h; cases h
      | ok rs0 =>
        rw [he] at h
        cases hr : getAllNodesRules table rest with
        | error e => rw [hr] at h; cases h
        | ok tail =>
          rw [hr] at h
          intro t' ht' g hg
          rcases List.mem_cons.mp ht' with rfl | ht'
          · cases u
            exact validateRemoteManagedGroups_ok hv g hg
          · exact ih hr t' ht' g hg

theorem getSecurityGroupByName_congr {client2 client : NetworkClient}
    (hl : client2.ListSecGroup = client.ListSecGroup) (name : String) :
    getSecurityGroupByName client2 name = getSecurityGroupByName client name := by
  simp [getSecurityGroupByName, hl]

theorem fetchGroupIDs_congr {client2 client : NetworkClient}
    (hl : client2.ListSecGroup = client.ListSecGroup)
    (names : List (String × String)) :
    fetchGroupIDs client2 names = fetchGroupIDs client names := by
  induction names with
  | nil => rfl
  | cons p rest ih =>
    obtain ⟨i, v⟩ := p
    simp only [fetchGroupIDs, getSecurityGroupByName_congr hl, ih]

/-- The generator touches the provider only through the read-only list
operation: any two clients agreeing on `ListSecGroup` produce identical
generator results — in particular the generator issues no mutating calls. -/
theorem generateDesiredSecGroups_congr {client2 client : NetworkClient}
    (hl : client2.ListSecGroup = client.ListSecGroup) (tpl : RuleTemplates)
    (config : ClusterSpecConfig) (secGroupNames : List (String × String)) :
    generateDesiredSecGroups tpl client2 config secGroupNames =
      generateDesiredSecGroups tpl client config secGroupNames := by
  simp only [generateDesiredSecGroups, fetchGroupIDs_congr hl]

/-- C4: if the fetch phase succeeds and some all-nodes template references a
role absent from the resolution table (for example bastion while bastion is
disabled), the whole generation fails with an error carrying no group specs,
and the generator's behaviour depends only on the provider's read-only list
call (it issues no mutating provider call). -/
theorem generateDesiredSecGroups_unresolved_role
    {tpl : RuleTemplates} {client : NetworkClient} {config : ClusterSpecConfig}
    {secGroupNames : List (String × String)} {msg : ManagedSecurityGroups}
    {cp w b : String} {table : List (String × String)}
    (hmsg : config.ManagedSecurityGroups = some msg)
    (hfetch : fetchGroupIDs client secGroupNames = .ok (cp, w, b, table))
    (hbad : ∃ t ∈ msg.AllNodesSecurityGroupRules, ∃ g ∈ t.RemoteManagedGroups,
      List.lookup g table = none) :
    (∃ e, generateDesiredSecGroups tpl client config secGroupNames = .error e) ∧
    ∀ client2 : NetworkClient, client2.ListSecGroup = client.ListSecGroup →
      generateDesiredSecGroups tpl client2 config secGroupNames =
        generateDesiredSecGroups tpl client config secGroupNames := by
  refine ⟨?_, fun client2 hl => generateDesiredSecGroups_congr hl tpl config secGroupNames⟩
  cases han : getAllNodesRules table msg.AllNodesSecurityGroupRules with
  | error e =>
    exact ⟨e, by simp [generateDesiredSecGroups, hmsg, hfetch, han]⟩
  | ok rs =>
    exfalso
    obtain ⟨t, ht, g, hg, hnone⟩ := hbad
    have := getAllNodesRules_ok_resolves han t ht g hg
    rw [hnone] at this
    cases this

theorem generateDesiredSecGroups_unresolved_role_witness :
    ∃ e, generateDesiredSecGroups tplEmpty echoClient unresolvedConfig roleNames =
      .error e :=
  (generateDesiredSecGroups_unresolved_role rfl
    (show fetchGroupIDs echoClient roleNames =
      .ok ("", "", "", [(controlPlaneSuffix, ""), (workerSuffix, "")]) from rfl)
    ⟨bastionTemplate, by decide, "bastion", by decide, by decide⟩).1

/-- C10 counterexample: an observed rule status with a nil EtherType pointer
on which `Matches` returns `some false` without faulting — the Description
comparison fails first and Go's `&&` short-circuits — refuting "faults on any
observed rule with a nil field". -/
theorem Matches_nil_field_no_fault :
    nilEtherStatus.EtherType = none ∧
    Matches sampleRuleB nilEtherStatus = some false :=
  ⟨rfl, by decide⟩

/-- C10 (amended): `Matches` is partial — it faults on a nil Description, and
on a later nil pointer only when all earlier comparisons succeed — but every
rule status produced by `convertOSSecGroupRuleToConfigSecGroupRule` has all
seven pointer fields non-nil, so on every observed state returned by
`getSecurityGroupByName` the fault branch of `Matches` (and hence of
`reconcileGroupRules`) is unreachable. -/
theorem Matches_total_on_fetched :
    (∀ (r : resolvedSecurityGroupRuleSpec) (o : SecurityGroupRuleStatus),
      o.Description = none → Matches r o = none) ∧
    (∀ (w : SecGroupRule) (r : resolvedSecurityGroupRuleSpec),
      (Matches r (convertOSSecGroupRuleToConfigSecGroupRule w)).isSome = true) ∧
    (∀ (client : NetworkClient) (name : String) (st : SecurityGroupStatus),
      getSecurityGroupByName client name = .ok st →
      ∀ o ∈ st.Rules, ∀ r, (Matches r o).isSome = true) := by
  refine ⟨?_, ?_, ?_⟩
  · intro r o hd
    obtain ⟨oid, odir, od, oe, omin, omax, op, org, oip⟩ := o
    simp only at hd
    subst hd
    rfl
  · intro w r
    rw [Matches_eq_of_statusFields (statusFields_convert_wire w) r]
    rfl
  · intro client name st hst o ho r
    revert hst
    simp only [getSecurityGroupByName]
    cases client.ListSecGroup name with
    | error e => simp
    | ok gs =>
      rcases gs with _ | ⟨g, gs'⟩
      · intro hst
        injection hst with hst
        subst hst
        simp [emptySecurityGroupStatus] at ho
      · rcases gs' with _ | ⟨g2, rest⟩
        · intro hst
          injection hst with hst
          subst hst
          simp only [convertOSSecGroupToConfigSecGroup] at ho
          obtain ⟨wr, _, hwr⟩ := List.mem_map.mp ho
          subst hwr
          rw [Matches_eq_of_statusFields (statusFields_convert_wire wr) r]
          rfl
        · intro hst
          cases hst

theorem Matches_total_on_fetched_witness :
    (Matches sampleRuleB
      (convertOSSecGroupRuleToConfigSecGroupRule sampleWireRule)).isSome = true :=
  Matches_total_on_fetched.2.2 ruleClient "n"
    (convertOSSecGroupToConfigSecGroup sampleGroupWithRule) rfl
    (convertOSSecGroupRuleToConfigSecGroupRule sampleWireRule) (by decide) sampleRuleB

end networking
